import Mathlib

/-!
# BridgeErrorScanner — verification of the crawl / dedup / materialize pipeline

Shallow embedding of the Google Drive scanner (`DriveScanner`), the rate-limited
Drive adapter retry logic (`DriveAdapter`), and the chart downloader
(`ChartsDownloader` / `ChartDownloader`) of the BridgeErrorScanner repository,
together with proofs of the specified properties.

Conventions:
* JS strings are Lean `String`s; JS `array.sort()` is `List.mergeSort` with the
  default lexicographic comparison; `array.join()` is `joinComma` below.
* The MD5 digest itself is kept as an explicit function parameter `md5`
  (the repository calls out to `crypto`); properties that need it assume it is
  injective on its input string, as the specification directs.
* Filesystem state is a list of existing paths; maps keyed by JS object keys
  are association lists preserving JS insertion-order semantics.
-/

namespace BridgeScanner

/-- Drive item as returned by the Drive API (the `DriveFileResponse` /
`DriveFolderResponse` / `DriveShortcutResponse` templates of `Templates.ts`).
`size` is in bytes (`// In bytes` in the template); optional fields are `Option`s
since folder responses omit them. -/
structure ShortcutDetails where
  targetId : String
  targetMimeType : String
deriving DecidableEq, Repr

structure DriveItem where
  id : String
  name : String
  mimeType : String
  modifiedTime : String
  md5Checksum : String
  size : Option Nat
  fullFileExtension : Option String
  shortcutDetails : Option ShortcutDetails
deriving DecidableEq, Repr

/-- `Array.prototype.join()` with the default `","` separator. -/
def joinComma : List String → String
  | [] => ""
  | [a] => a
  | a :: b :: rest => a ++ "," ++ joinComma (b :: rest)

/-- Lexicographic comparison of char lists: the order `Array.prototype.sort()`
uses on these strings. -/
def charListLe : List Char → List Char → Bool
  | [], _ => true
  | _ :: _, [] => false
  | a :: as, b :: bs => if a < b then true else if b < a then false else charListLe as bs

/-- String comparison used by the default `Array.prototype.sort()` comparator. -/
def strLe (a b : String) : Prop :=
  charListLe a.data b.data = true

instance : DecidableRel strLe := fun a b => by
  unfold strLe; infer_instance

/-- `Array.prototype.sort()` on an array of strings.  The sorted permutation
under a total antisymmetric order is unique, so any sorting algorithm models
the JS sort; we use insertion sort, which evaluates by `decide`. -/
def jsSort (l : List String) : List String :=
  List.insertionSort strLe l

/-- The per-file string hashed by `DriveScanner.getFilesHash`:
`file.md5Checksum + file.id + file.name`. -/
def fileKey (f : DriveItem) : String :=
  f.md5Checksum ++ f.id ++ f.name

/-- The string fed to the MD5 digest by `DriveScanner.getFilesHash`:
`md5s.sort().join()`. -/
def getFilesHashInput (files : List DriveItem) : String :=
  joinComma (jsSort (files.map fileKey))

/-- `DriveScanner.getFilesHash`, with the `crypto` MD5 digest abstracted as the
function parameter `md5`. -/
def getFilesHash (md5 : String → String) (files : List DriveItem) : String :=
  md5 (getFilesHashInput files)

/-- A string containing no `','` (the separator `join()` inserts). -/
def commaFree (s : String) : Prop :=
  ',' ∉ s.data

theorem charListLe_total (a b : List Char) : charListLe a b = true ∨ charListLe b a = true := by
  induction a generalizing b with
  | nil => left; rfl
  | cons x xs ih =>
    cases b with
    | nil => right; rfl
    | cons y ys =>
      by_cases hxy : x < y
      · left; simp [charListLe, hxy]
      · by_cases hyx : y < x
        · right; simp [charListLe, hyx, hxy]
        · have := ih ys
          rcases this with h | h
          · left; simpa [charListLe, hxy, hyx] using h
          · right; simpa [charListLe, hxy, hyx] using h

theorem charListLe_antisymm {a b : List Char} (h1 : charListLe a b = true)
    (h2 : charListLe b a = true) : a = b := by
  induction a generalizing b with
  | nil =>
    cases b with
    | nil => rfl
    | cons y ys => simp [charListLe] at h2
  | cons x xs ih =>
    cases b with
    | nil => simp [charListLe] at h1
    | cons y ys =>
      by_cases hxy : x < y
      · simp [charListLe, hxy, lt_asymm hxy] at h2
      · by_cases hyx : y < x
        · simp [charListLe, hxy, hyx] at h1
        · have hx : x = y := le_antisymm (not_lt.mp hyx) (not_lt.mp hxy)
          subst hx
          have h1' : charListLe xs ys = true := by simpa [charListLe, hxy] using h1
          have h2' : charListLe ys xs = true := by simpa [charListLe, hxy] using h2
          rw [ih h1' h2']

theorem charListLe_trans {a b c : List Char} (h1 : charListLe a b = true)
    (h2 : charListLe b c = true) : charListLe a c = true := by
  induction a generalizing b c with
  | nil => rfl
  | cons x xs ih =>
    cases b with
    | nil => simp [charListLe] at h1
    | cons y ys =>
      cases c with
      | nil => simp [charListLe] at h2
      | cons z zs =>
        by_cases hxy : x < y
        · by_cases hyz : y < z
          · simp [charListLe, lt_trans hxy hyz]
          · by_cases hzy : z < y
            · simp [charListLe, hyz, hzy] at h2
            · have : y = z := le_antisymm (not_lt.mp hzy) (not_lt.mp hyz)
              subst this
              simp [charListLe, hxy]
        · by_cases hyx : y < x
          · simp [charListLe, hyx, hxy] at h1
          · have hx : x = y := le_antisymm (not_lt.mp hyx) (not_lt.mp hxy)
            subst hx
            have h1' : charListLe xs ys = true := by simpa [charListLe, hxy] using h1
            by_cases hyz : x < z
            · simp [charListLe, hyz]
            · by_cases hzy : z < x
              · simp [charListLe, hyz, hzy] at h2
              · have : x = z := le_antisymm (not_lt.mp hzy) (not_lt.mp hyz)
                subst this
                have h2' : charListLe ys zs = true := by simpa [charListLe, hyz] using h2
                simpa [charListLe, hyz] using ih h1' h2'

instance strLe_isTotal : IsTotal String strLe :=
  ⟨fun a b => charListLe_total a.data b.data⟩

instance strLe_isTrans : IsTrans String strLe :=
  ⟨fun _ _ _ h1 h2 => charListLe_trans h1 h2⟩

instance strLe_isAntisymm : IsAntisymm String strLe :=
  ⟨fun _ _ h1 h2 => String.ext (charListLe_antisymm h1 h2)⟩

theorem jsSort_perm (l : List String) : List.Perm (jsSort l) l :=
  List.perm_insertionSort strLe l

theorem jsSort_sorted (l : List String) : List.Sorted strLe (jsSort l) :=
  List.sorted_insertionSort strLe l

theorem jsSort_eq_of_perm {l l' : List String} (h : List.Perm l l') :
    jsSort l = jsSort l' :=
  List.eq_of_perm_of_sorted
    ((jsSort_perm l).trans (h.trans (jsSort_perm l').symm))
    (jsSort_sorted l) (jsSort_sorted l')

end BridgeScanner

namespace BridgeScanner

/-- Splitting a string at the first comma is unambiguous when the prefixes are
comma-free. -/
theorem comma_split : ∀ (a b u v : List Char), ',' ∉ a → ',' ∉ b →
    a ++ ',' :: u = b ++ ',' :: v → a = b ∧ u = v := by
  intro a
  induction a with
  | nil =>
    intro b u v _ hb h
    cases b with
    | nil => simpa using h
    | cons y bs =>
      simp only [List.nil_append, List.cons_append, List.cons.injEq] at h
      exact absurd (by rw [h.1]; exact List.mem_cons_self y bs) hb
  | cons x xs ih =>
    intro b u v ha hb h
    cases b with
    | nil =>
      simp only [List.nil_append, List.cons_append, List.cons.injEq] at h
      exact absurd (by rw [← h.1]; exact List.mem_cons_self x xs) ha
    | cons y bs =>
      simp only [List.cons_append, List.cons.injEq] at h
      obtain ⟨hxy, hrest⟩ := h
      have := ih bs u v (fun hm => ha (List.mem_cons_of_mem x hm))
        (fun hm => hb (List.mem_cons_of_mem y hm)) hrest
      exact ⟨by simp [hxy, this.1], this.2⟩

theorem joinComma_data_cons (a b : String) (t : List String) :
    (joinComma (a :: b :: t)).data = a.data ++ ',' :: (joinComma (b :: t)).data := by
  show (a ++ "," ++ joinComma (b :: t)).data = _
  simp [String.data_append]

/-- `join()` is injective on equal-length lists of comma-free strings. -/
theorem joinComma_inj : ∀ (l l' : List String), l.length = l'.length →
    (∀ s ∈ l, commaFree s) → (∀ s ∈ l', commaFree s) →
    joinComma l = joinComma l' → l = l' := by
  intro l
  induction l with
  | nil =>
    intro l' hlen _ _ _
    cases l' with
    | nil => rfl
    | cons a t => simp at hlen
  | cons a t ih =>
    intro l' hlen hc hc' hj
    cases l' with
    | nil => simp at hlen
    | cons a' t' =>
      cases t with
      | nil =>
        cases t' with
        | nil => simpa [joinComma] using hj
        | cons b' t2' => simp at hlen
      | cons b t2 =>
        cases t' with
        | nil => simp at hlen
        | cons b' t2' =>
          have hd := congrArg String.data hj
          rw [joinComma_data_cons, joinComma_data_cons] at hd
          have hsplit := comma_split a.data a'.data _ _
            (hc a (List.mem_cons_self a _)) (hc' a' (List.mem_cons_self a' _)) hd
          have ha : a = a' := String.ext hsplit.1
          have hrest : joinComma (b :: t2) = joinComma (b' :: t2') := String.ext hsplit.2
          have := ih (b' :: t2') (by simpa using hlen)
            (fun s hs => hc s (List.mem_cons_of_mem a hs))
            (fun s hs => hc' s (List.mem_cons_of_mem a' hs)) hrest
          rw [ha, this]

/-- A single file's triple differs in exactly one of the three hashed fields. -/
def oneFieldChanged (x y : DriveItem) : Prop :=
  (x.id = y.id ∧ x.name = y.name ∧ x.md5Checksum ≠ y.md5Checksum) ∨
  (x.md5Checksum = y.md5Checksum ∧ x.name = y.name ∧ x.id ≠ y.id) ∨
  (x.md5Checksum = y.md5Checksum ∧ x.id = y.id ∧ x.name ≠ y.name)

instance (x y : DriveItem) : Decidable (oneFieldChanged x y) := by
  unfold oneFieldChanged; infer_instance

/-- All three hashed fields of a file are comma-free. -/
def commaFreeItem (f : DriveItem) : Prop :=
  commaFree f.md5Checksum ∧ commaFree f.id ∧ commaFree f.name

instance (f : DriveItem) : Decidable (commaFreeItem f) := by
  unfold commaFreeItem commaFree; infer_instance

theorem fileKey_data (f : DriveItem) :
    (fileKey f).data = f.md5Checksum.data ++ (f.id.data ++ f.name.data) := by
  simp [fileKey, String.data_append]

theorem fileKey_ne_of_change {x y : DriveItem} (h : oneFieldChanged x y) :
    fileKey x ≠ fileKey y := by
  intro heq
  have hd : x.md5Checksum.data ++ (x.id.data ++ x.name.data)
      = y.md5Checksum.data ++ (y.id.data ++ y.name.data) := by
    rw [← fileKey_data, ← fileKey_data, heq]
  rcases h with ⟨hi, hn, hc⟩ | ⟨hc, hn, hi⟩ | ⟨hc, hi, hn⟩
  · rw [hi, hn] at hd
    exact hc (String.ext (List.append_cancel_right hd))
  · rw [hc, hn] at hd
    have := List.append_cancel_left hd
    exact hi (String.ext (List.append_cancel_right this))
  · rw [hc, hi] at hd
    have := List.append_cancel_left hd
    exact hn (String.ext (List.append_cancel_left this))

theorem commaFree_fileKey {f : DriveItem} (h : commaFreeItem f) : commaFree (fileKey f) := by
  obtain ⟨h1, h2, h3⟩ := h
  intro hm
  rw [fileKey_data] at hm
  rcases List.mem_append.mp hm with hm | hm
  · exact h1 hm
  · rcases List.mem_append.mp hm with hm | hm
    · exact h2 hm
    · exact h3 hm

end BridgeScanner

namespace BridgeScanner

theorem getFilesHashInput_ne {u v : List DriveItem} {x y : DriveItem}
    (hchange : oneFieldChanged x y)
    (hcf : ∀ f ∈ u ++ x :: v, commaFreeItem f) (hcfy : commaFreeItem y) :
    getFilesHashInput (u ++ x :: v) ≠ getFilesHashInput (u ++ y :: v) := by
  intro heq
  have hne := fileKey_ne_of_change hchange
  have hcf' : ∀ f ∈ u ++ y :: v, commaFreeItem f := by
    intro f hf
    rcases List.mem_append.mp hf with hf | hf
    · exact hcf f (List.mem_append.mpr (Or.inl hf))
    · rcases List.mem_cons.mp hf with hf | hf
      · exact hf ▸ hcfy
      · exact hcf f (List.mem_append.mpr (Or.inr (List.mem_cons_of_mem x hf)))
  have hlen : (jsSort ((u ++ x :: v).map fileKey)).length
      = (jsSort ((u ++ y :: v).map fileKey)).length := by
    rw [(jsSort_perm _).length_eq, (jsSort_perm _).length_eq]
    simp
  have hmemK : ∀ s ∈ jsSort ((u ++ x :: v).map fileKey), commaFree s := by
    intro s hs
    have := (jsSort_perm _).mem_iff.mp hs
    obtain ⟨f, hf, rfl⟩ := List.mem_map.mp this
    exact commaFree_fileKey (hcf f hf)
  have hmemK' : ∀ s ∈ jsSort ((u ++ y :: v).map fileKey), commaFree s := by
    intro s hs
    have := (jsSort_perm _).mem_iff.mp hs
    obtain ⟨f, hf, rfl⟩ := List.mem_map.mp this
    exact commaFree_fileKey (hcf' f hf)
  have hsorteq : jsSort ((u ++ x :: v).map fileKey)
      = jsSort ((u ++ y :: v).map fileKey) :=
    joinComma_inj _ _ hlen hmemK hmemK' heq
  have hperm : List.Perm ((u ++ x :: v).map fileKey) ((u ++ y :: v).map fileKey) :=
    (jsSort_perm _).symm.trans (hsorteq ▸ jsSort_perm _)
  have hcount := hperm.count_eq (fileKey x)
  simp [List.count_append, List.count_cons, hne] at hcount

/-- C1 (amended).  The fingerprint is invariant under any permutation of the
constituent files, and — provided the hashed fields (checksum, id, name) are
comma-free, so that the `join()` separator is unambiguous — changing any one
checksum, id, or name of a single file changes the fingerprint (for any
injective digest).  Without the comma-free proviso the sensitivity half is
false, see the counterexample. -/
theorem c1_fingerprint :
    (∀ (md5 : String → String) (l l' : List DriveItem), List.Perm l l' →
      getFilesHash md5 l = getFilesHash md5 l') ∧
    (∀ (md5 : String → String), Function.Injective md5 →
      ∀ (u v : List DriveItem) (x y : DriveItem), oneFieldChanged x y →
        (∀ f ∈ u ++ x :: v, commaFreeItem f) → commaFreeItem y →
        getFilesHash md5 (u ++ x :: v) ≠ getFilesHash md5 (u ++ y :: v)) := by
  constructor
  · intro md5 l l' h
    unfold getFilesHash getFilesHashInput
    rw [jsSort_eq_of_perm (h.map fileKey)]
  · intro md5 hinj u v x y hchange hcf hcfy heq
    exact getFilesHashInput_ne hchange hcf hcfy (hinj heq)

/-- Witness for `c1_fingerprint` at concrete inputs. -/
theorem c1_fingerprint_witness :
    getFilesHash (fun s => s)
        [⟨"", "b", "", "", "a", none, none, none⟩, ⟨"", "b", "", "", "c", none, none, none⟩]
      = getFilesHash (fun s => s)
        [⟨"", "b", "", "", "c", none, none, none⟩, ⟨"", "b", "", "", "a", none, none, none⟩] ∧
    getFilesHash (fun s => s) [⟨"", "b", "", "", "a", none, none, none⟩]
      ≠ getFilesHash (fun s => s) [⟨"", "b", "", "", "c", none, none, none⟩] :=
  ⟨c1_fingerprint.1 _ _ _ (by decide),
   c1_fingerprint.2 _ (fun _ _ h => h) [] []
     ⟨"", "b", "", "", "a", none, none, none⟩ ⟨"", "b", "", "", "c", none, none, none⟩
     (by decide) (by decide) (by decide)⟩

/-- C1 as literally stated is false: with comma-containing names the sorted
`join()` string can coincide after changing one file's name.  Here the digest
is the identity function, which is injective, yet the two distinct file lists
(differing only in the second file's name, `",a"` vs `"a,"`) fingerprint
identically. -/
theorem c1_fingerprint_counterexample :
    oneFieldChanged ⟨"", ",a", "", "", "", none, none, none⟩
        ⟨"", "a,", "", "", "", none, none, none⟩ ∧
    Function.Injective (fun s : String => s) ∧
    getFilesHash (fun s => s)
        [⟨"", ",a,", "", "", "", none, none, none⟩, ⟨"", ",a", "", "", "", none, none, none⟩]
      = getFilesHash (fun s => s)
        [⟨"", ",a,", "", "", "", none, none, none⟩, ⟨"", "a,", "", "", "", none, none, none⟩] :=
  ⟨by decide, fun _ _ h => h, by decide⟩

end BridgeScanner

namespace BridgeScanner

/-- MIME type constants (`MIME_TYPES` in `DriveScanner.ts`). -/
def shortcutMime : String := "application/vnd.google-apps.shortcut"

def folderMime : String := "application/vnd.google-apps.folder"

structure DrivePair where
  id : String
  name : String
deriving DecidableEq, Repr

/-- A configured scan root (`Source` in `ScanDataInterface.ts`). -/
structure Source where
  driveID : String
  ownerName : String
  isFileSource : Bool
deriving DecidableEq, Repr

/-- Work-list entry (`StackItem` in `DriveScanner.ts`).  The optional JS fields
`isSource` / `isShortcut` default to `false` (undefined is falsy). -/
structure StackItem where
  isFile : Bool
  self : DrivePair
  parent : DrivePair
  source : Source
  isSource : Bool := false
  isShortcut : Bool := false
deriving DecidableEq, Repr

/-- `DriveChart` of `ScanDataInterface.ts`; `files` still holds the full Drive
responses until `simplifyDriveMap` trims them. -/
structure DriveChart where
  source : Source
  itemName : String
  isArchive : Bool
  downloadPath : Option String
  folderName : String
  folderID : String
  filesHash : String
  files : List DriveItem
deriving DecidableEq, Repr

/-- `DriveFile` of `ScanDataInterface.ts` (the trimmed per-file metadata). -/
structure DriveFile where
  id : String
  name : String
  mimeType : String
  modifiedTime : String
  md5Checksum : String
  size : Option Nat
deriving DecidableEq, Repr

/-- A `DriveChart` after `simplifyDriveFiles` trimmed its `files`. -/
structure SimpleChart where
  source : Source
  itemName : String
  isArchive : Bool
  downloadPath : Option String
  folderName : String
  folderID : String
  filesHash : String
  files : List DriveFile
deriving DecidableEq, Repr

/-- JS object property assignment `obj[k] = v` on a string-keyed object,
preserving insertion order. -/
def jsObjSet {β : Type} : List (String × β) → String → β → List (String × β)
  | [], k, v => [(k, v)]
  | (k', v') :: rest, k, v =>
    if k' = k then (k, v) :: rest else (k', v') :: jsObjSet rest k v

/-- `this.results[driveID][filesHash] = chart`.  The outer key is always
present when this runs (it is initialized when the source task is popped);
on the unreachable missing-key path the JS code would throw, we no-op. -/
def recordChart : List (String × List (String × DriveChart)) → String → String → DriveChart →
    List (String × List (String × DriveChart))
  | [], _, _, _ => []
  | (k', m) :: rest, k, h, c =>
    if k' = k then (k', jsObjSet m h c) :: rest else (k', m) :: recordChart rest k h c

/-- The remote side seen by the scanner.  `listing id = none` models
`readDriveFolder` failing (after its retries are exhausted); single-file
fetches (`readDriveFile`) are modeled as succeeding. -/
structure DriveGraph where
  listing : String → Option (List DriveItem)
  getFile : String → DriveItem

def targetIdOf (i : DriveItem) : String :=
  (i.shortcutDetails.getD ⟨"", ""⟩).targetId

def targetMimeOf (i : DriveItem) : String :=
  (i.shortcutDetails.getD ⟨"", ""⟩).targetMimeType

/-- `lower` from `util.ts`: `text.toLowerCase()` (char-wise, so that it
evaluates in the kernel). -/
def lower (s : String) : String :=
  ⟨s.data.map Char.toLower⟩

/-- `['zip', 'rar', '7z'].includes(lower(ext))`. -/
def isArchiveExt (ext : String) : Bool :=
  ["zip", "rar", "7z"].contains (lower ext)

/-- `appearsToBeChartFolder` from `ChartUtils.ts`. -/
def appearsToBeChartFolder (extensions : List String) : Bool :=
  let ext := extensions.map lower
  let containsNotes := ext.contains "chart" || ext.contains "mid"
  let containsAudio :=
    ext.contains "ogg" || ext.contains "mp3" || ext.contains "wav" || ext.contains "opus"
  containsNotes || containsAudio

/-- Settings and collaborators the scanner closes over. -/
structure ScanEnv where
  graph : DriveGraph
  maxDownloadSizeMB : Int
  md5 : String → String
  resolveFuel : Nat

/-- `DriveScanner` instance state.  `scanStack` is stored top-first: the list
head is the end of the JS array (the element `pop()` removes); `push` conses,
`unshift` appends.  `listedLog` records each non-skipped pop — one
`readItems` (child-listing) call — as `(self.id, isShortcut)`; `sizeWarnings`
records the names of files skipped as too large. -/
structure ScanState where
  errorOccurred : Bool
  scanStack : List StackItem
  results : List (String × List (String × DriveChart))
  visitedDriveIDs : List String
  listedLog : List (String × Bool)
  sizeWarnings : List String
deriving DecidableEq, Repr

/-- `Set.add`: sets never hold duplicates. -/
def addVisited (id : String) (l : List String) : List String :=
  if l.contains id then l else id :: l

/-- Resolution condition of the loop in `readItems` (lines 215-223): a
shortcut to a non-folder whose target is unvisited and whose extension is
present and not an archive extension gets replaced by its target file. -/
def shouldResolve (visited : List String) (i : DriveItem) : Bool :=
  i.mimeType == shortcutMime
  && targetMimeOf i != folderMime
  && !(visited.contains (targetIdOf i))
  && (match i.fullFileExtension with
      | some e => !(isArchiveExt e)
      | none => false)

/-- The recursive part of `readItems` for a file id: fetch the file and chase
shortcut-to-file indirections (bounded by fuel; the source recursion has no
bound and would loop forever on a cycle of file shortcuts). -/
def resolveFileShortcut (g : DriveGraph) (visited : List String) :
    Nat → String → DriveItem
  | 0, targetId => g.getFile targetId
  | fuel + 1, targetId =>
    let item := g.getFile targetId
    if shouldResolve visited item then
      resolveFileShortcut g visited fuel (targetIdOf item)
    else item

/-- `DriveScanner.readItems`: list the item's children (or fetch the single
file), resolving shortcut-to-file children; `none` models the catch branch
(listing failed) that sets `errorOccurred` and yields `[]`. -/
def readItems (env : ScanEnv) (visited : List String) (t : StackItem) :
    Option (List DriveItem) :=
  if t.isFile then
    some [resolveFileShortcut env.graph visited env.resolveFuel t.self.id]
  else
    match env.graph.listing t.self.id with
    | none => none
    | some items =>
      some (items.map fun i =>
        if shouldResolve visited i then
          resolveFileShortcut env.graph visited env.resolveFuel (targetIdOf i)
        else i)

/-- `item.size && scanSettings.maxDownloadSizeMB > -1 && Number(item.size) >
scanSettings.maxDownloadSizeMB` (line 145).  `item.size` is a byte count. -/
def sizeTooBig (maxDownloadSizeMB : Int) (item : DriveItem) : Bool :=
  match item.size with
  | some n => maxDownloadSizeMB > -1 && (n : Int) > maxDownloadSizeMB
  | none => false

/-- Archive-extension test of line 152: `item.fullFileExtension &&
['zip','rar','7z'].includes(lower(item.fullFileExtension))`. -/
def isArchiveItem (item : DriveItem) : Bool :=
  match item.fullFileExtension with
  | some e => isArchiveExt e
  | none => false

/-- The `nextStackItem` built at lines 136-141 (pushed as-is for folders). -/
def folderTaskOf (t : StackItem) (item : DriveItem) : StackItem :=
  { isFile := false, self := ⟨item.id, item.name⟩, parent := t.self, source := t.source }

/-- `nextStackItem` after the shortcut-branch mutations of lines 148-150. -/
def shortcutTaskOf (t : StackItem) (item : DriveItem) : StackItem :=
  { isFile := targetMimeOf item != folderMime, self := ⟨targetIdOf item, item.name⟩,
    parent := t.self, source := t.source, isSource := false, isShortcut := true }

/-- Classification of one listed child (the body of the `for` loop at lines
132-168 of `DriveScanner.scanDrive`). -/
def classifyItem (env : ScanEnv) (sourceIDs : List String) (t : StackItem)
    (acc : ScanState × List DriveItem) (item : DriveItem) : ScanState × List DriveItem :=
  let (st, cand) := acc
  if !t.source.isFileSource && sourceIDs.contains item.id then (st, cand)
  else if sourceIDs.contains item.id then (st, cand)
  else
    let st := { st with visitedDriveIDs := addVisited item.id st.visitedDriveIDs }
    if item.mimeType == folderMime then
      ({ st with scanStack := folderTaskOf t item :: st.scanStack }, cand)
    else if sizeTooBig env.maxDownloadSizeMB item then
      ({ st with sizeWarnings := item.name :: st.sizeWarnings }, cand)
    else if item.mimeType == shortcutMime then
      ({ st with scanStack := st.scanStack ++ [shortcutTaskOf t item] }, cand)
    else if isArchiveItem item then
      let filesHash := getFilesHash env.md5 [item]
      let chart : DriveChart :=
        { source := t.source, itemName := item.name, isArchive := true,
          downloadPath := none,
          folderName := if t.isFile then t.parent.name else t.self.name,
          folderID := if t.isFile then t.parent.id else t.self.id,
          filesHash := filesHash, files := [item] }
      ({ st with results := recordChart st.results t.source.driveID filesHash chart }, cand)
    else if item.fullFileExtension.isSome then
      (st, cand ++ [item])
    else (st, cand)

/-- Classify all children of a popped task and, if the candidate list
satisfies the chart heuristic, record the chart (lines 131-185). -/
def processTask (env : ScanEnv) (sourceIDs : List String) (t : StackItem)
    (items : List DriveItem) (st : ScanState) : ScanState :=
  let res := items.foldl (classifyItem env sourceIDs t) (st, [])
  let st1 := res.1
  let cand := res.2
  if appearsToBeChartFolder (cand.map fun f => f.fullFileExtension.getD "") then
    let filesHash := getFilesHash env.md5 cand
    let chart : DriveChart :=
      { source := t.source, itemName := t.self.name, isArchive := false,
        downloadPath := none, folderName := t.self.name, folderID := t.self.id,
        filesHash := filesHash, files := cand }
    { st1 with results := recordChart st1.results t.source.driveID filesHash chart }
  else st1

/-- One iteration of the `while` loop of `DriveScanner.scanDrive`
(lines 116-186). -/
def scanStep (env : ScanEnv) (sourceIDs : List String) (st : ScanState) : ScanState :=
  match st.scanStack with
  | [] => st
  | t :: rest =>
    if t.isShortcut && st.visitedDriveIDs.contains t.self.id then
      { st with scanStack := rest }
    else
      let st1 :=
        { st with
          scanStack := rest,
          results :=
            if t.isSource then jsObjSet st.results t.source.driveID [] else st.results,
          visitedDriveIDs := addVisited t.self.id st.visitedDriveIDs,
          listedLog := (t.self.id, t.isShortcut) :: st.listedLog }
      match readItems env st1.visitedDriveIDs t with
      | none => { st1 with errorOccurred := true }
      | some items => processTask env sourceIDs t items st1

/-- `new DriveScanner(sources)`: one task per source; JS pops from the array
end, so the last-pushed source is on top. -/
def initStack (sources : List Source) : List StackItem :=
  (sources.map fun s =>
    ({ isFile := s.isFileSource, self := ⟨s.driveID, s.ownerName⟩,
       parent := ⟨s.driveID, s.ownerName⟩, source := s, isSource := true } : StackItem)).reverse

def initState (sources : List Source) : ScanState :=
  { errorOccurred := false, scanStack := initStack sources, results := [],
    visitedDriveIDs := [], listedLog := [], sizeWarnings := [] }

def sourceIDsOf (sources : List Source) : List String :=
  sources.map (·.driveID)

/-- Run the scan loop for at most `fuel` iterations. -/
def scanRun (env : ScanEnv) (sourceIDs : List String) : Nat → ScanState → ScanState
  | 0, st => st
  | n + 1, st =>
    match st.scanStack with
    | [] => st
    | _ :: _ => scanRun env sourceIDs n (scanStep env sourceIDs st)

/-- `DriveScanner.simplifyDriveFiles`. -/
def simplifyDriveFiles (files : List DriveItem) : List DriveFile :=
  files.map fun f =>
    { id := f.id, name := f.name, mimeType := f.mimeType,
      modifiedTime := f.modifiedTime, md5Checksum := f.md5Checksum, size := f.size }

def simplifyChart (c : DriveChart) : SimpleChart :=
  { source := c.source, itemName := c.itemName, isArchive := c.isArchive,
    downloadPath := c.downloadPath, folderName := c.folderName,
    folderID := c.folderID, filesHash := c.filesHash,
    files := simplifyDriveFiles c.files }

/-- `DriveScanner.simplifyDriveMap`. -/
def simplifyDriveMap (m : List (String × List (String × DriveChart))) :
    List (String × List (String × SimpleChart)) :=
  m.map fun e => (e.1, e.2.map fun hc => (hc.1, simplifyChart hc.2))

/-- `DriveScanner.scanDrive` run with `fuel` loop iterations. -/
def scanDrive (env : ScanEnv) (sources : List Source) (fuel : Nat) :
    List (String × List (String × SimpleChart)) :=
  simplifyDriveMap ((scanRun env (sourceIDsOf sources) fuel (initState sources)).results)

end BridgeScanner

namespace BridgeScanner

theorem classifyItem_drop {env : ScanEnv} {sourceIDs : List String} {t : StackItem}
    {item : DriveItem} (h : sourceIDs.contains item.id = true)
    (acc : ScanState × List DriveItem) :
    classifyItem env sourceIDs t acc item = acc := by
  have hm : item.id ∈ sourceIDs := by simpa using h
  obtain ⟨st, cand⟩ := acc
  cases hb : t.source.isFileSource <;> simp [classifyItem, hm, hb]

theorem foldl_classify_filter (env : ScanEnv) (sourceIDs : List String) (t : StackItem) :
    ∀ (items : List DriveItem) (acc : ScanState × List DriveItem),
    items.foldl (classifyItem env sourceIDs t) acc
      = (items.filter fun i => !(sourceIDs.contains i.id)).foldl
          (classifyItem env sourceIDs t) acc := by
  intro items
  induction items with
  | nil => intro acc; rfl
  | cons i rest ih =>
    intro acc
    by_cases h : sourceIDs.contains i.id = true
    · simp only [List.foldl_cons, List.filter_cons, h]
      rw [classifyItem_drop h]
      simpa using ih acc
    · have h' : sourceIDs.contains i.id = false := by
        cases hx : sourceIDs.contains i.id
        · rfl
        · exact absurd hx h
      simp only [List.foldl_cons, List.filter_cons, h']
      simpa using ih (classifyItem env sourceIDs t acc i)

theorem classify_candidates_not_source (env : ScanEnv) (sourceIDs : List String)
    (t : StackItem) :
    ∀ (items : List DriveItem) (acc : ScanState × List DriveItem),
    (∀ i ∈ acc.2, sourceIDs.contains i.id = false) →
    ∀ i ∈ (items.foldl (classifyItem env sourceIDs t) acc).2,
      sourceIDs.contains i.id = false := by
  intro items
  induction items with
  | nil => intro acc hacc; exact hacc
  | cons j rest ih =>
    intro acc hacc
    apply ih
    obtain ⟨st, cand⟩ := acc
    by_cases h : sourceIDs.contains j.id = true
    · rw [classifyItem_drop h]; exact hacc
    · have h' : sourceIDs.contains j.id = false := by
        cases hx : sourceIDs.contains j.id
        · rfl
        · exact absurd hx h
      intro i hi
      simp only [classifyItem, h', Bool.and_false, Bool.false_eq_true, if_neg,
        Bool.not_false, Bool.and_true] at hi
      by_cases hf : j.mimeType == folderMime
      · simp [hf] at hi
        exact hacc i hi
      · simp only [hf, if_neg, Bool.false_eq_true] at hi
        by_cases hs : sizeTooBig env.maxDownloadSizeMB j = true
        · simp [hs] at hi
          exact hacc i hi
        · simp only [hs, if_neg, Bool.false_eq_true] at hi
          by_cases hsc : j.mimeType == shortcutMime
          · simp [hsc] at hi
            exact hacc i hi
          · simp only [hsc, if_neg, Bool.false_eq_true] at hi
            by_cases ha : isArchiveItem j = true
            · simp [ha] at hi
              exact hacc i hi
            · simp only [ha, if_neg, Bool.false_eq_true] at hi
              by_cases he : j.fullFileExtension.isSome
              · simp only [he, if_pos] at hi
                rcases List.mem_append.mp hi with hi | hi
                · exact hacc i hi
                · rw [List.mem_singleton.mp hi]
                  exact h'
              · simp only [he, Bool.false_eq_true, if_neg] at hi
                exact hacc i hi

/-- C4: an item whose id equals a configured root id is dropped during
classification, whatever task (normal, source, or indirection-target) listed
it: processing a task over its listed children equals processing it over the
children with all configured-root ids filtered out, and the candidate-file
list never contains an item with a configured root id. -/
theorem c4_root_exclusion (env : ScanEnv) (sourceIDs : List String) (t : StackItem)
    (items : List DriveItem) (st : ScanState) :
    processTask env sourceIDs t items st
      = processTask env sourceIDs t
          (items.filter fun i => !(sourceIDs.contains i.id)) st ∧
    ∀ i ∈ (items.foldl (classifyItem env sourceIDs t) (st, [])).2,
      sourceIDs.contains i.id = false := by
  constructor
  · unfold processTask
    rw [foldl_classify_filter]
  · exact classify_candidates_not_source env sourceIDs t items (st, [])
      (by intro i hi; simp at hi)

end BridgeScanner

namespace BridgeScanner

/-- The work-list discipline: non-shortcut (directly reachable) tasks form a
prefix (the end `pop()` takes from), indirection-target tasks a suffix. -/
def ShortcutSplit (l : List StackItem) : Prop :=
  ∃ N S, l = N ++ S ∧ (∀ x ∈ N, x.isShortcut = false) ∧ (∀ x ∈ S, x.isShortcut = true)

theorem shortcutSplit_nil : ShortcutSplit [] :=
  ⟨[], [], rfl, by simp, by simp⟩

theorem shortcutSplit_tail {t : StackItem} {rest : List StackItem}
    (h : ShortcutSplit (t :: rest)) : ShortcutSplit rest := by
  obtain ⟨N, S, heq, hN, hS⟩ := h
  cases N with
  | nil =>
    cases S with
    | nil => simp at heq
    | cons s S' =>
      simp only [List.nil_append] at heq
      injection heq with h1 h2
      subst h1
      subst h2
      exact ⟨[], rest, by simp, by simp, fun x hx => hS x (List.mem_cons_of_mem t hx)⟩
  | cons n N' =>
    simp only [List.cons_append, List.cons.injEq] at heq
    exact ⟨N', S, heq.2, fun x hx => hN x (List.mem_cons_of_mem n hx), hS⟩

theorem shortcutSplit_cons_nonshortcut {t : StackItem} {l : List StackItem}
    (ht : t.isShortcut = false) (h : ShortcutSplit l) : ShortcutSplit (t :: l) := by
  obtain ⟨N, S, heq, hN, hS⟩ := h
  exact ⟨t :: N, S, by simp [heq], by
    intro x hx
    rcases List.mem_cons.mp hx with hx | hx
    · exact hx ▸ ht
    · exact hN x hx, hS⟩

theorem shortcutSplit_append_shortcut {t : StackItem} {l : List StackItem}
    (ht : t.isShortcut = true) (h : ShortcutSplit l) : ShortcutSplit (l ++ [t]) := by
  obtain ⟨N, S, heq, hN, hS⟩ := h
  refine ⟨N, S ++ [t], by simp [heq], hN, ?_⟩
  intro x hx
  rcases List.mem_append.mp hx with hx | hx
  · exact hS x hx
  · exact (List.mem_singleton.mp hx) ▸ ht

theorem classifyItem_split {env : ScanEnv} {sourceIDs : List String} {t : StackItem}
    {acc : ScanState × List DriveItem} (h : ShortcutSplit acc.1.scanStack)
    (item : DriveItem) : ShortcutSplit (classifyItem env sourceIDs t acc item).1.scanStack := by
  obtain ⟨st, cand⟩ := acc
  by_cases hm : item.id ∈ sourceIDs
  · cases hb : t.source.isFileSource <;> simpa [classifyItem, hm, hb] using h
  · by_cases h3 : item.mimeType = folderMime
    · have goal : ShortcutSplit (folderTaskOf t item :: st.scanStack) :=
        shortcutSplit_cons_nonshortcut rfl h
      cases hb : t.source.isFileSource <;> simpa [classifyItem, hm, hb, h3] using goal
    · by_cases h4 : sizeTooBig env.maxDownloadSizeMB item = true
      · cases hb : t.source.isFileSource <;> simpa [classifyItem, hm, hb, h3, h4] using h
      · by_cases h5 : item.mimeType = shortcutMime
        · have goal : ShortcutSplit (st.scanStack ++ [shortcutTaskOf t item]) :=
            shortcutSplit_append_shortcut rfl h
          cases hb : t.source.isFileSource <;>
            simpa [classifyItem, hm, hb, h3, h4, h5] using goal
        · by_cases h6 : isArchiveItem item = true
          · cases hb : t.source.isFileSource <;>
              simpa [classifyItem, hm, hb, h3, h4, h5, h6] using h
          · by_cases h7 : item.fullFileExtension.isSome
            · cases hb : t.source.isFileSource <;>
                simpa [classifyItem, hm, hb, h3, h4, h5, h6, h7] using h
            · cases hb : t.source.isFileSource <;>
                simpa [classifyItem, hm, hb, h3, h4, h5, h6, h7] using h

theorem foldl_classify_split (env : ScanEnv) (sourceIDs : List String) (t : StackItem) :
    ∀ (items : List DriveItem) (acc : ScanState × List DriveItem),
    ShortcutSplit acc.1.scanStack →
    ShortcutSplit ((items.foldl (classifyItem env sourceIDs t) acc).1.scanStack) := by
  intro items
  induction items with
  | nil => intro acc h; exact h
  | cons i rest ih =>
    intro acc h
    exact ih (classifyItem env sourceIDs t acc i) (classifyItem_split h i)

theorem processTask_split {env : ScanEnv} {sourceIDs : List String} {t : StackItem}
    {items : List DriveItem} {st : ScanState} (h : ShortcutSplit st.scanStack) :
    ShortcutSplit (processTask env sourceIDs t items st).scanStack := by
  unfold processTask
  have := foldl_classify_split env sourceIDs t items (st, []) h
  by_cases hc : appearsToBeChartFolder
      (((items.foldl (classifyItem env sourceIDs t) (st, [])).2).map
        fun f => f.fullFileExtension.getD "") = true
  · simpa [hc] using this
  · simpa [hc] using this

theorem scanStep_split {env : ScanEnv} {sourceIDs : List String} {st : ScanState}
    (h : ShortcutSplit st.scanStack) :
    ShortcutSplit (scanStep env sourceIDs st).scanStack := by
  cases hstk : st.scanStack with
  | nil => simpa [scanStep, hstk] using h
  | cons t rest =>
    have hrest : ShortcutSplit rest := shortcutSplit_tail (hstk ▸ h)
    by_cases hskip : t.isShortcut = true ∧ t.self.id ∈ st.visitedDriveIDs
    · simpa [scanStep, hstk, hskip] using hrest
    · cases hread : readItems env (addVisited t.self.id st.visitedDriveIDs) t with
      | none => simpa [scanStep, hstk, hskip, hread] using hrest
      | some items =>
        simp [scanStep, hstk, hskip, hread]
        apply processTask_split
        exact hrest

theorem initStack_no_shortcut (sources : List Source) :
    ∀ x ∈ initStack sources, x.isShortcut = false := by
  intro x hx
  unfold initStack at hx
  rw [List.mem_reverse] at hx
  obtain ⟨s, _, rfl⟩ := List.mem_map.mp hx
  rfl

theorem scanRun_split (env : ScanEnv) (sourceIDs : List String) :
    ∀ (n : Nat) (st : ScanState), ShortcutSplit st.scanStack →
    ShortcutSplit (scanRun env sourceIDs n st).scanStack := by
  intro n
  induction n with
  | zero => intro st h; exact h
  | succ m ih =>
    intro st h
    cases hstk : st.scanStack with
    | nil => simpa [scanRun, hstk] using h
    | cons t rest =>
      simpa [scanRun, hstk] using ih _ (scanStep_split h)

/-- C9: every state reachable in the crawl keeps all indirection-target
(shortcut) tasks below all directly-reachable (non-shortcut) tasks, and the
popped task is a shortcut task only once no non-shortcut task remains: all
directly reachable folders at the current depth are fully explored before any
indirection discovered there is resolved. -/
theorem c9_ordering (env : ScanEnv) (sources : List Source) (n : Nat) :
    ShortcutSplit (scanRun env (sourceIDsOf sources) n (initState sources)).scanStack ∧
    (∀ t rest,
      (scanRun env (sourceIDsOf sources) n (initState sources)).scanStack = t :: rest →
      t.isShortcut = true → ∀ x ∈ rest, x.isShortcut = true) := by
  have hsplit : ShortcutSplit
      (scanRun env (sourceIDsOf sources) n (initState sources)).scanStack := by
    apply scanRun_split
    exact ⟨initStack sources, [], by simp [initState], initStack_no_shortcut sources, by simp⟩
  refine ⟨hsplit, ?_⟩
  intro t rest heq ht x hx
  obtain ⟨N, S, hNS, hN, hS⟩ := hsplit
  rw [heq] at hNS
  cases N with
  | nil =>
    simp only [List.nil_append] at hNS
    exact hS x (hNS ▸ List.mem_cons_of_mem t hx)
  | cons n0 N' =>
    simp only [List.cons_append, List.cons.injEq] at hNS
    exact absurd (hNS.1 ▸ ht) (by simp [hN n0 (List.mem_cons_self n0 N')])

end BridgeScanner

namespace BridgeScanner

theorem jsObjSet_keys {β : Type} (m : List (String × β)) (k : String) (v : β) (k' : String) :
    k' ∈ (jsObjSet m k v).map Prod.fst ↔ (k' ∈ m.map Prod.fst ∨ k' = k) := by
  induction m with
  | nil => simp [jsObjSet]
  | cons e rest ih =>
    obtain ⟨k0, v0⟩ := e
    by_cases h : k0 = k
    · subst h
      simp [jsObjSet]
      tauto
    · simp only [jsObjSet, if_neg h, List.map_cons, List.mem_cons]
      rw [ih]
      tauto

theorem recordChart_keys (m : List (String × List (String × DriveChart)))
    (k h : String) (c : DriveChart) :
    (recordChart m k h c).map Prod.fst = m.map Prod.fst := by
  induction m with
  | nil => rfl
  | cons e rest ih =>
    obtain ⟨k0, m0⟩ := e
    by_cases hk : k0 = k
    · simp [recordChart, hk]
    · simp [recordChart, hk, ih]

theorem mem_jsObjSet {β : Type} {m : List (String × β)} {k : String} {v : β} {e : String × β}
    (he : e ∈ jsObjSet m k v) : e ∈ m ∨ e = (k, v) := by
  induction m with
  | nil => simpa [jsObjSet] using he
  | cons e0 rest ih =>
    obtain ⟨k0, v0⟩ := e0
    by_cases hk : k0 = k
    · simp only [jsObjSet, if_pos hk] at he
      rcases List.mem_cons.mp he with he | he
      · right; exact he
      · left; exact List.mem_cons_of_mem _ he
    · simp only [jsObjSet, if_neg hk] at he
      rcases List.mem_cons.mp he with he | he
      · left; exact he ▸ List.mem_cons_self _ _
      · rcases ih he with he | he
        · left; exact List.mem_cons_of_mem _ he
        · right; exact he

theorem mem_recordChart {m : List (String × List (String × DriveChart))}
    {k h : String} {c : DriveChart} {e : String × List (String × DriveChart)}
    (he : e ∈ recordChart m k h c) :
    e ∈ m ∨ ∃ m0, (e.1, m0) ∈ m ∧ e.1 = k ∧ e.2 = jsObjSet m0 h c := by
  induction m with
  | nil => simpa [recordChart] using he
  | cons e0 rest ih =>
    obtain ⟨k0, m0⟩ := e0
    by_cases hk : k0 = k
    · simp only [recordChart, if_pos hk] at he
      rcases List.mem_cons.mp he with he | he
      · right
        refine ⟨m0, ?_, ?_, ?_⟩
        · rw [he]; exact List.mem_cons_self _ _
        · rw [he]; exact hk
        · rw [he]
      · left; exact List.mem_cons_of_mem _ he
    · simp only [recordChart, if_neg hk] at he
      rcases List.mem_cons.mp he with he | he
      · left; exact he ▸ List.mem_cons_self _ _
      · rcases ih he with he | ⟨mm, hmm, hek, hee⟩
        · left; exact List.mem_cons_of_mem _ he
        · right; exact ⟨mm, List.mem_cons_of_mem _ hmm, hek, hee⟩

theorem shortcutMime_ne_folderMime : shortcutMime ≠ folderMime := by
  decide

/-- Tasks pushed during classification inherit the popped task's `source` and
are not source tasks; existing entries are never removed. -/
theorem classifyItem_stack_mem {env : ScanEnv} {sourceIDs : List String} {t : StackItem}
    {acc : ScanState × List DriveItem} {item : DriveItem} {x : StackItem}
    (hx : x ∈ (classifyItem env sourceIDs t acc item).1.scanStack) :
    x ∈ acc.1.scanStack ∨ (x.source = t.source ∧ x.isSource = false) := by
  obtain ⟨st, cand⟩ := acc
  by_cases hm : item.id ∈ sourceIDs
  · left
    cases hb : t.source.isFileSource <;> simpa [classifyItem, hm, hb] using hx
  · by_cases h3 : item.mimeType = folderMime
    · have hx' : x ∈ folderTaskOf t item :: st.scanStack := by
        cases hb : t.source.isFileSource <;> simpa [classifyItem, hm, hb, h3] using hx
      rcases List.mem_cons.mp hx' with hx' | hx'
      · right; rw [hx']; exact ⟨rfl, rfl⟩
      · left; exact hx'
    · by_cases h4 : sizeTooBig env.maxDownloadSizeMB item = true
      · left
        cases hb : t.source.isFileSource <;> simpa [classifyItem, hm, hb, h3, h4] using hx
      · by_cases h5 : item.mimeType = shortcutMime
        · have hx' : x ∈ st.scanStack ++ [shortcutTaskOf t item] := by
            cases hb : t.source.isFileSource <;>
              simpa [classifyItem, hm, hb, h3, h4, h5, shortcutMime_ne_folderMime] using hx
          rcases List.mem_append.mp hx' with hx' | hx'
          · left; exact hx'
          · right; rw [List.mem_singleton.mp hx']; exact ⟨rfl, rfl⟩
        · by_cases h6 : isArchiveItem item = true
          · left
            cases hb : t.source.isFileSource <;>
              simpa [classifyItem, hm, hb, h3, h4, h5, h6] using hx
          · by_cases h7 : item.fullFileExtension.isSome
            · left
              cases hb : t.source.isFileSource <;>
                simpa [classifyItem, hm, hb, h3, h4, h5, h6, h7] using hx
            · left
              cases hb : t.source.isFileSource <;>
                simpa [classifyItem, hm, hb, h3, h4, h5, h6, h7] using hx

theorem foldl_classify_stack_mem (env : ScanEnv) (sourceIDs : List String) (t : StackItem) :
    ∀ (items : List DriveItem) (acc : ScanState × List DriveItem) (x : StackItem),
    x ∈ (items.foldl (classifyItem env sourceIDs t) acc).1.scanStack →
    x ∈ acc.1.scanStack ∨ (x.source = t.source ∧ x.isSource = false) := by
  intro items
  induction items with
  | nil => intro acc x hx; left; exact hx
  | cons i rest ih =>
    intro acc x hx
    rcases ih (classifyItem env sourceIDs t acc i) x hx with hx' | hx'
    · exact classifyItem_stack_mem hx'
    · right; exact hx'

/-- Existing stack entries survive classification. -/
theorem classifyItem_stack_incl {env : ScanEnv} {sourceIDs : List String} {t : StackItem}
    {acc : ScanState × List DriveItem} {item : DriveItem} {x : StackItem}
    (hx : x ∈ acc.1.scanStack) :
    x ∈ (classifyItem env sourceIDs t acc item).1.scanStack := by
  obtain ⟨st, cand⟩ := acc
  by_cases hm : item.id ∈ sourceIDs
  · cases hb : t.source.isFileSource <;> simpa [classifyItem, hm, hb] using hx
  · by_cases h3 : item.mimeType = folderMime
    · have hx' : x ∈ folderTaskOf t item :: st.scanStack := List.mem_cons_of_mem _ hx
      cases hb : t.source.isFileSource <;> simpa [classifyItem, hm, hb, h3] using hx'
    · by_cases h4 : sizeTooBig env.maxDownloadSizeMB item = true
      · cases hb : t.source.isFileSource <;> simpa [classifyItem, hm, hb, h3, h4] using hx
      · by_cases h5 : item.mimeType = shortcutMime
        · have hx' : x ∈ st.scanStack ++ [shortcutTaskOf t item] :=
            List.mem_append.mpr (Or.inl hx)
          cases hb : t.source.isFileSource <;>
            simpa [classifyItem, hm, hb, h3, h4, h5, shortcutMime_ne_folderMime] using hx'
        · by_cases h6 : isArchiveItem item = true
          · cases hb : t.source.isFileSource <;>
              simpa [classifyItem, hm, hb, h3, h4, h5, h6] using hx
          · by_cases h7 : item.fullFileExtension.isSome
            · cases hb : t.source.isFileSource <;>
                simpa [classifyItem, hm, hb, h3, h4, h5, h6, h7] using hx
            · cases hb : t.source.isFileSource <;>
                simpa [classifyItem, hm, hb, h3, h4, h5, h6, h7] using hx

theorem foldl_classify_stack_incl (env : ScanEnv) (sourceIDs : List String) (t : StackItem) :
    ∀ (items : List DriveItem) (acc : ScanState × List DriveItem) (x : StackItem),
    x ∈ acc.1.scanStack →
    x ∈ (items.foldl (classifyItem env sourceIDs t) acc).1.scanStack := by
  intro items
  induction items with
  | nil => intro acc x hx; exact hx
  | cons i rest ih =>
    intro acc x hx
    exact ih (classifyItem env sourceIDs t acc i) x (classifyItem_stack_incl hx)

end BridgeScanner

namespace BridgeScanner

/-- Every chart is stored under its own source's driveID. -/
def ChartKeyInv (m : List (String × List (String × DriveChart))) : Prop :=
  ∀ e ∈ m, ∀ hc ∈ e.2, (hc.2 : DriveChart).source.driveID = e.1

theorem chartKeyInv_record {m : List (String × List (String × DriveChart))}
    {k h : String} {c : DriveChart} (hm : ChartKeyInv m) (hc : c.source.driveID = k) :
    ChartKeyInv (recordChart m k h c) := by
  intro e he hpair hmem
  rcases mem_recordChart he with he | ⟨m0, hm0, hek, hee⟩
  · exact hm e he hpair hmem
  · rw [hee] at hmem
    rcases mem_jsObjSet hmem with hmem | hmem
    · exact hm (e.1, m0) hm0 hpair hmem
    · rw [hmem]
      rw [hek]
      exact hc

theorem chartKeyInv_objSetEmpty {m : List (String × List (String × DriveChart))}
    {k : String} (hm : ChartKeyInv m) : ChartKeyInv (jsObjSet m k []) := by
  intro e he hpair hmem
  rcases mem_jsObjSet he with he | he
  · exact hm e he hpair hmem
  · rw [he] at hmem
    simp at hmem

theorem classifyItem_results_keys (env : ScanEnv) (sourceIDs : List String) (t : StackItem)
    (acc : ScanState × List DriveItem) (item : DriveItem) :
    (classifyItem env sourceIDs t acc item).1.results.map Prod.fst
      = acc.1.results.map Prod.fst := by
  obtain ⟨st, cand⟩ := acc
  by_cases hm : item.id ∈ sourceIDs
  · cases hb : t.source.isFileSource <;> simp [classifyItem, hm, hb]
  · by_cases h3 : item.mimeType = folderMime
    · cases hb : t.source.isFileSource <;> simp [classifyItem, hm, hb, h3]
    · by_cases h4 : sizeTooBig env.maxDownloadSizeMB item = true
      · cases hb : t.source.isFileSource <;> simp [classifyItem, hm, hb, h3, h4]
      · by_cases h5 : item.mimeType = shortcutMime
        · cases hb : t.source.isFileSource <;>
            simp [classifyItem, hm, hb, h3, h4, h5, shortcutMime_ne_folderMime]
        · by_cases h6 : isArchiveItem item = true
          · cases hb : t.source.isFileSource <;>
              simp [classifyItem, hm, hb, h3, h4, h5, h6, recordChart_keys]
          · by_cases h7 : item.fullFileExtension.isSome
            · cases hb : t.source.isFileSource <;> simp [classifyItem, hm, hb, h3, h4, h5, h6, h7]
            · cases hb : t.source.isFileSource <;> simp [classifyItem, hm, hb, h3, h4, h5, h6, h7]

theorem classifyItem_chartKeyInv {env : ScanEnv} {sourceIDs : List String} {t : StackItem}
    {acc : ScanState × List DriveItem} {item : DriveItem}
    (h : ChartKeyInv acc.1.results) :
    ChartKeyInv (classifyItem env sourceIDs t acc item).1.results := by
  obtain ⟨st, cand⟩ := acc
  by_cases hm : item.id ∈ sourceIDs
  · cases hb : t.source.isFileSource <;> simpa [classifyItem, hm, hb] using h
  · by_cases h3 : item.mimeType = folderMime
    · cases hb : t.source.isFileSource <;> simpa [classifyItem, hm, hb, h3] using h
    · by_cases h4 : sizeTooBig env.maxDownloadSizeMB item = true
      · cases hb : t.source.isFileSource <;> simpa [classifyItem, hm, hb, h3, h4] using h
      · by_cases h5 : item.mimeType = shortcutMime
        · cases hb : t.source.isFileSource <;>
            simpa [classifyItem, hm, hb, h3, h4, h5, shortcutMime_ne_folderMime] using h
        · by_cases h6 : isArchiveItem item = true
          · have goal : ChartKeyInv (recordChart st.results t.source.driveID
                (getFilesHash env.md5 [item])
                { source := t.source, itemName := item.name, isArchive := true,
                  downloadPath := none,
                  folderName := if t.isFile then t.parent.name else t.self.name,
                  folderID := if t.isFile then t.parent.id else t.self.id,
                  filesHash := getFilesHash env.md5 [item], files := [item] }) :=
              chartKeyInv_record h rfl
            cases hb : t.source.isFileSource <;>
              simpa [classifyItem, hm, hb, h3, h4, h5, h6] using goal
          · by_cases h7 : item.fullFileExtension.isSome
            · cases hb : t.source.isFileSource <;>
                simpa [classifyItem, hm, hb, h3, h4, h5, h6, h7] using h
            · cases hb : t.source.isFileSource <;>
                simpa [classifyItem, hm, hb, h3, h4, h5, h6, h7] using h

theorem foldl_classify_results_keys (env : ScanEnv) (sourceIDs : List String) (t : StackItem) :
    ∀ (items : List DriveItem) (acc : ScanState × List DriveItem),
    (items.foldl (classifyItem env sourceIDs t) acc).1.results.map Prod.fst
      = acc.1.results.map Prod.fst := by
  intro items
  induction items with
  | nil => intro acc; rfl
  | cons i rest ih =>
    intro acc
    rw [List.foldl_cons, ih, classifyItem_results_keys]

theorem foldl_classify_chartKeyInv (env : ScanEnv) (sourceIDs : List String) (t : StackItem) :
    ∀ (items : List DriveItem) (acc : ScanState × List DriveItem),
    ChartKeyInv acc.1.results →
    ChartKeyInv (items.foldl (classifyItem env sourceIDs t) acc).1.results := by
  intro items
  induction items with
  | nil => intro acc h; exact h
  | cons i rest ih =>
    intro acc h
    exact ih _ (classifyItem_chartKeyInv h)

theorem processTask_results_keys (env : ScanEnv) (sourceIDs : List String) (t : StackItem)
    (items : List DriveItem) (st : ScanState) :
    (processTask env sourceIDs t items st).results.map Prod.fst
      = st.results.map Prod.fst := by
  unfold processTask
  by_cases hc : appearsToBeChartFolder
      (((items.foldl (classifyItem env sourceIDs t) (st, [])).2).map
        fun f => f.fullFileExtension.getD "") = true
  · simp only [hc, if_pos]
    rw [recordChart_keys, foldl_classify_results_keys]
  · simp only [hc, Bool.false_eq_true, if_false]
    rw [foldl_classify_results_keys]

theorem processTask_chartKeyInv {env : ScanEnv} {sourceIDs : List String} {t : StackItem}
    {items : List DriveItem} {st : ScanState} (h : ChartKeyInv st.results) :
    ChartKeyInv (processTask env sourceIDs t items st).results := by
  unfold processTask
  have hfold := foldl_classify_chartKeyInv env sourceIDs t items (st, []) h
  by_cases hc : appearsToBeChartFolder
      (((items.foldl (classifyItem env sourceIDs t) (st, [])).2).map
        fun f => f.fullFileExtension.getD "") = true
  · simp only [hc, if_pos]
    exact chartKeyInv_record hfold rfl
  · simp only [hc, Bool.false_eq_true, if_false]
    exact hfold

theorem processTask_stack_mem {env : ScanEnv} {sourceIDs : List String} {t : StackItem}
    {items : List DriveItem} {st : ScanState} {x : StackItem}
    (hx : x ∈ (processTask env sourceIDs t items st).scanStack) :
    x ∈ st.scanStack ∨ (x.source = t.source ∧ x.isSource = false) := by
  unfold processTask at hx
  by_cases hc : appearsToBeChartFolder
      (((items.foldl (classifyItem env sourceIDs t) (st, [])).2).map
        fun f => f.fullFileExtension.getD "") = true
  · simp only [hc, if_pos] at hx
    exact foldl_classify_stack_mem env sourceIDs t items (st, []) x hx
  · simp only [hc, Bool.false_eq_true, if_false] at hx
    exact foldl_classify_stack_mem env sourceIDs t items (st, []) x hx

theorem processTask_stack_incl {env : ScanEnv} {sourceIDs : List String} {t : StackItem}
    {items : List DriveItem} {st : ScanState} {x : StackItem}
    (hx : x ∈ st.scanStack) :
    x ∈ (processTask env sourceIDs t items st).scanStack := by
  unfold processTask
  by_cases hc : appearsToBeChartFolder
      (((items.foldl (classifyItem env sourceIDs t) (st, [])).2).map
        fun f => f.fullFileExtension.getD "") = true
  · simp only [hc, if_pos]
    exact foldl_classify_stack_incl env sourceIDs t items (st, []) x hx
  · simp only [hc, Bool.false_eq_true, if_false]
    exact foldl_classify_stack_incl env sourceIDs t items (st, []) x hx

end BridgeScanner

namespace BridgeScanner

/-- Standing invariant of the scanner: result keys come only from configured
sources, charts sit under their own source's key, every pending task carries a
configured source, and source tasks are never shortcut tasks. -/
def MapInv (sourceIDs : List String) (st : ScanState) : Prop :=
  (∀ k ∈ st.results.map Prod.fst, k ∈ sourceIDs) ∧
  ChartKeyInv st.results ∧
  (∀ x ∈ st.scanStack, x.source.driveID ∈ sourceIDs) ∧
  (∀ x ∈ st.scanStack, x.isSource = true → x.isShortcut = false)

/-- Every configured source either still has its pending source task or has
already contributed its key to the results. -/
def SourceCover (sources : List Source) (st : ScanState) : Prop :=
  ∀ s ∈ sources,
    (∃ x ∈ st.scanStack, x.isSource = true ∧ x.source.driveID = s.driveID) ∨
    s.driveID ∈ st.results.map Prod.fst

theorem scanStep_mapInv {env : ScanEnv} {cids ids : List String} {sources : List Source}
    {st : ScanState} (h : MapInv ids st) (hcov : SourceCover sources st) :
    MapInv ids (scanStep env cids st) ∧ SourceCover sources (scanStep env cids st) := by
  obtain ⟨hkeys, hchart, hstk, hsrc⟩ := h
  cases hstack : st.scanStack with
  | nil =>
    constructor
    · exact ⟨by simpa [scanStep, hstack] using hkeys, by simpa [scanStep, hstack] using hchart,
        by simpa [scanStep, hstack] using hstk, by simpa [scanStep, hstack] using hsrc⟩
    · intro s hs
      rcases hcov s hs with hcase | hcase
      · left; simpa [scanStep, hstack] using hcase
      · right; simpa [scanStep, hstack] using hcase
  | cons t rest =>
    have htmem : t ∈ st.scanStack := hstack ▸ List.mem_cons_self t rest
    by_cases hskip : t.isShortcut = true ∧ t.self.id ∈ st.visitedDriveIDs
    · have hout : scanStep env cids st = { st with scanStack := rest } := by
        simp [scanStep, hstack, hskip]
      rw [hout]
      refine ⟨⟨hkeys, hchart, ?_, ?_⟩, ?_⟩
      · intro x hx; exact hstk x (hstack ▸ List.mem_cons_of_mem t hx)
      · intro x hx; exact hsrc x (hstack ▸ List.mem_cons_of_mem t hx)
      · intro s hs
        rcases hcov s hs with ⟨x, hxmem, hxs, hxid⟩ | hcase
        · left
          refine ⟨x, ?_, hxs, hxid⟩
          have : x ∈ t :: rest := hstack ▸ hxmem
          rcases List.mem_cons.mp this with hx | hx
          · exact absurd (hx ▸ hskip.1) (by simp [hsrc x hxmem (hx ▸ hxs)])
          · exact hx
        · right; exact hcase
    · set results0 := if t.isSource = true then jsObjSet st.results t.source.driveID []
        else st.results with hres0
      have hkeys0 : ∀ k ∈ results0.map Prod.fst, k ∈ ids := by
        intro k hk
        rw [hres0] at hk
        by_cases hb : t.isSource = true
        · rw [if_pos hb] at hk
          rcases (jsObjSet_keys _ _ _ _).mp hk with hk | hk
          · exact hkeys k hk
          · exact hk ▸ hstk t htmem
        · rw [if_neg hb] at hk
          exact hkeys k hk
      have hchart0 : ChartKeyInv results0 := by
        rw [hres0]
        by_cases hb : t.isSource = true
        · rw [if_pos hb]; exact chartKeyInv_objSetEmpty hchart
        · rw [if_neg hb]; exact hchart
      have hkeysGrow : ∀ k ∈ st.results.map Prod.fst, k ∈ results0.map Prod.fst := by
        intro k hk
        rw [hres0]
        by_cases hb : t.isSource = true
        · rw [if_pos hb]; exact (jsObjSet_keys _ _ _ _).mpr (Or.inl hk)
        · rw [if_neg hb]; exact hk
      have hkeySrc : t.isSource = true → t.source.driveID ∈ results0.map Prod.fst := by
        intro hb
        rw [hres0, if_pos hb]
        exact (jsObjSet_keys _ _ _ _).mpr (Or.inr rfl)
      -- the state handed to readItems / processTask
      set st1 : ScanState := { st with scanStack := rest, results := results0, visitedDriveIDs := addVisited t.self.id st.visitedDriveIDs, listedLog := (t.self.id, t.isShortcut) :: st.listedLog } with hst1
      have hstep : scanStep env cids st
          = match readItems env st1.visitedDriveIDs t with
            | none => { st1 with errorOccurred := true }
            | some items => processTask env cids t items st1 := by
        simp [scanStep, hstack, hskip, hres0, hst1]
      have hrest_stk : ∀ x ∈ rest, x.source.driveID ∈ ids := fun x hx =>
        hstk x (hstack ▸ List.mem_cons_of_mem t hx)
      have hrest_src : ∀ x ∈ rest, x.isSource = true → x.isShortcut = false := fun x hx =>
        hsrc x (hstack ▸ List.mem_cons_of_mem t hx)
      cases hread : readItems env st1.visitedDriveIDs t with
      | none =>
        rw [hstep, hread]
        refine ⟨⟨hkeys0, hchart0, hrest_stk, hrest_src⟩, ?_⟩
        intro s hs
        rcases hcov s hs with ⟨x, hxmem, hxs, hxid⟩ | hcase
        · rcases List.mem_cons.mp (hstack ▸ hxmem) with hx | hx
          · right; subst hx; exact hxid ▸ hkeySrc hxs
          · left; exact ⟨x, hx, hxs, hxid⟩
        · right; exact hkeysGrow _ hcase
      | some items =>
        rw [hstep, hread]
        have hkeysP := processTask_results_keys env cids t items st1
        refine ⟨⟨?_, processTask_chartKeyInv hchart0, ?_, ?_⟩, ?_⟩
        · intro k hk
          rw [hkeysP] at hk
          exact hkeys0 k hk
        · intro x hx
          rcases processTask_stack_mem hx with hx | ⟨hxsrc, _⟩
          · exact hrest_stk x hx
          · rw [hxsrc]; exact hstk t htmem
        · intro x hx hxs
          rcases processTask_stack_mem hx with hx | ⟨_, hxfalse⟩
          · exact hrest_src x hx hxs
          · exact absurd hxs (by simp [hxfalse])
        · intro s hs
          rcases hcov s hs with ⟨x, hxmem, hxs, hxid⟩ | hcase
          · rcases List.mem_cons.mp (hstack ▸ hxmem) with hx | hx
            · right
              rw [hkeysP]
              subst hx
              exact hxid ▸ hkeySrc hxs
            · left
              exact ⟨x, processTask_stack_incl hx, hxs, hxid⟩
          · right
            rw [hkeysP]
            exact hkeysGrow _ hcase

theorem scanRun_mapInv (env : ScanEnv) (cids ids : List String) (sources : List Source) :
    ∀ (n : Nat) (st : ScanState), MapInv ids st → SourceCover sources st →
    MapInv ids (scanRun env cids n st) ∧ SourceCover sources (scanRun env cids n st) := by
  intro n
  induction n with
  | zero => intro st h hc; exact ⟨h, hc⟩
  | succ m ih =>
    intro st h hc
    cases hstk : st.scanStack with
    | nil => simp only [scanRun, hstk]; exact ⟨h, hc⟩
    | cons t rest =>
      have := @scanStep_mapInv env cids _ _ _ h hc
      simp only [scanRun, hstk]
      exact ih _ this.1 this.2

theorem initState_mapInv (sources : List Source) :
    MapInv (sourceIDsOf sources) (initState sources) ∧
    SourceCover sources (initState sources) := by
  constructor
  · refine ⟨by simp [initState], by intro e he; simp [initState] at he, ?_, ?_⟩
    · intro x hx
      simp only [initState, initStack, List.mem_reverse] at hx
      obtain ⟨s, hs, rfl⟩ := List.mem_map.mp hx
      exact List.mem_map.mpr ⟨s, hs, rfl⟩
    · intro x hx _
      simp only [initState, initStack, List.mem_reverse] at hx
      obtain ⟨s, hs, rfl⟩ := List.mem_map.mp hx
      rfl
  · intro s hs
    left
    refine ⟨{ isFile := s.isFileSource, self := ⟨s.driveID, s.ownerName⟩, parent := ⟨s.driveID, s.ownerName⟩, source := s, isSource := true }, ?_, rfl, rfl⟩
    simp only [initState, initStack, List.mem_reverse]
    exact List.mem_map.mpr ⟨s, hs, rfl⟩

theorem simplifyDriveMap_keys (m : List (String × List (String × DriveChart))) :
    (simplifyDriveMap m).map Prod.fst = m.map Prod.fst := by
  simp [simplifyDriveMap]

/-- C10: the DriveMap returned by `scanDrive` has exactly the configured
sources' driveIDs as keys — no other key ever appears, every source
contributes its key once its task has been processed (in particular whenever
the work-list has emptied), and every recorded chart is stored under the
driveID of the source whose traversal discovered it. -/
theorem c10_drivemap_keys (env : ScanEnv) (sources : List Source) (n : Nat) :
    (∀ k ∈ (scanDrive env sources n).map Prod.fst, k ∈ sourceIDsOf sources) ∧
    ((scanRun env (sourceIDsOf sources) n (initState sources)).scanStack = [] →
      ∀ k, k ∈ (scanDrive env sources n).map Prod.fst ↔ k ∈ sourceIDsOf sources) ∧
    (∀ e ∈ scanDrive env sources n, ∀ hc ∈ e.2,
      (hc.2 : SimpleChart).source.driveID = e.1) := by
  have hinit := initState_mapInv sources
  have hrun := scanRun_mapInv env (sourceIDsOf sources) (sourceIDsOf sources) sources n
    (initState sources) hinit.1 hinit.2
  obtain ⟨⟨hkeys, hchart, _, _⟩, hcov⟩ := hrun
  refine ⟨?_, ?_, ?_⟩
  · intro k hk
    rw [scanDrive, simplifyDriveMap_keys] at hk
    exact hkeys k hk
  · intro hempty k
    constructor
    · intro hk
      rw [scanDrive, simplifyDriveMap_keys] at hk
      exact hkeys k hk
    · intro hk
      obtain ⟨s, hs, rfl⟩ := List.mem_map.mp hk
      rcases hcov s hs with ⟨x, hxmem, _, _⟩ | hcase
      · rw [hempty] at hxmem
        simp at hxmem
      · rw [scanDrive, simplifyDriveMap_keys]
        exact hcase
  · intro e he hc hcmem
    rw [scanDrive] at he
    simp only [simplifyDriveMap, List.mem_map] at he
    obtain ⟨⟨k0, cm0⟩, hmem0, rfl⟩ := he
    simp only [List.mem_map] at hcmem
    obtain ⟨⟨h0, c0⟩, hmem1, rfl⟩ := hcmem
    exact hchart (k0, cm0) hmem0 (h0, c0) hmem1

end BridgeScanner

namespace BridgeScanner

/-- Concrete fixtures used by the witnesses. -/
def exFileItem (id name ext md5 : String) (size : Option Nat) : DriveItem :=
  ⟨id, name, "text/plain", "2020-01-01T00:00:00.000Z", md5, size, some ext, none⟩

def exGetFile (id : String) : DriveItem :=
  ⟨id, id, "text/plain", "", "", none, none, none⟩

def exSources1 : List Source := [⟨"R", "own", false⟩]

def exGraphChart : DriveGraph where
  listing := fun id =>
    if id = "R" then some [exFileItem "f1" "song.ogg" "ogg" "m1" (some 100)] else some []
  getFile := exGetFile

def exEnvChart : ScanEnv := ⟨exGraphChart, -1, fun s => s, 2⟩

def exGraphShort2 : DriveGraph where
  listing := fun id =>
    if id = "R" then
      some [⟨"s1", "sc1", shortcutMime, "", "", none, none, some ⟨"X", folderMime⟩⟩,
            ⟨"s2", "sc2", shortcutMime, "", "", none, none, some ⟨"Y", folderMime⟩⟩]
    else some []
  getFile := exGetFile

def exEnvShort2 : ScanEnv := ⟨exGraphShort2, -1, fun s => s, 2⟩

def exTaskR : StackItem := ⟨false, ⟨"R", "own"⟩, ⟨"R", "own"⟩, ⟨"R", "own", false⟩, true, false⟩

def exStR : ScanState := ⟨false, [], [("R", [])], [], [], []⟩

def exEnv50 : ScanEnv := ⟨exGraphChart, 50, fun s => s, 2⟩

def exDropItem : DriveItem := ⟨"R", "nested", folderMime, "", "", none, none, none⟩

/-- Witness for `c4_root_exclusion`: a listed child whose id is the configured
root id "R" is dropped, and the surviving candidate has a non-root id. -/
theorem c4_root_exclusion_witness :
    processTask exEnvChart ["R"] exTaskR
        [exDropItem, exFileItem "f1" "song.ogg" "ogg" "m1" (some 100)] exStR
      = processTask exEnvChart ["R"] exTaskR
          ([exDropItem, exFileItem "f1" "song.ogg" "ogg" "m1" (some 100)].filter
            fun i => !((["R"] : List String).contains i.id)) exStR ∧
    (["R"] : List String).contains (exFileItem "f1" "song.ogg" "ogg" "m1" (some 100)).id
      = false := by
  constructor
  · exact (c4_root_exclusion exEnvChart ["R"] exTaskR
      [exDropItem, exFileItem "f1" "song.ogg" "ogg" "m1" (some 100)] exStR).1
  · exact (c4_root_exclusion exEnvChart ["R"] exTaskR
      [exDropItem, exFileItem "f1" "song.ogg" "ogg" "m1" (some 100)] exStR).2
      (exFileItem "f1" "song.ogg" "ogg" "m1" (some 100)) (by decide)

/-- Witness for `c9_ordering`: after one step of a crawl that discovered two
indirections, the work-list is all-shortcut, and the entry below the popped
shortcut task is itself a shortcut task. -/
theorem c9_ordering_witness :
    ShortcutSplit
      (scanRun exEnvShort2 (sourceIDsOf exSources1) 1 (initState exSources1)).scanStack ∧
    (⟨false, ⟨"Y", "sc2"⟩, ⟨"R", "own"⟩, ⟨"R", "own", false⟩, false, true⟩
      : StackItem).isShortcut = true := by
  constructor
  · exact (c9_ordering exEnvShort2 exSources1 1).1
  · exact (c9_ordering exEnvShort2 exSources1 1).2
      ⟨false, ⟨"X", "sc1"⟩, ⟨"R", "own"⟩, ⟨"R", "own", false⟩, false, true⟩
      [⟨false, ⟨"Y", "sc2"⟩, ⟨"R", "own"⟩, ⟨"R", "own", false⟩, false, true⟩]
      (by decide) rfl
      ⟨false, ⟨"Y", "sc2"⟩, ⟨"R", "own"⟩, ⟨"R", "own", false⟩, false, true⟩
      (by decide)

/-- Witness for `c10_drivemap_keys`: a finished crawl of the one-source graph
has exactly the key "R", and its recorded chart names source "R". -/
theorem c10_drivemap_keys_witness :
    ("R" ∈ (scanDrive exEnvChart exSources1 2).map Prod.fst ↔ "R" ∈ sourceIDsOf exSources1) ∧
    ((⟨⟨"R", "own", false⟩, "own", false, none, "own", "R", "m1f1song.ogg",
      [⟨"f1", "song.ogg", "text/plain", "2020-01-01T00:00:00.000Z", "m1", some 100⟩]⟩
      : SimpleChart)).source.driveID = "R" := by
  constructor
  · exact (c10_drivemap_keys exEnvChart exSources1 2).2.1 (by decide) "R"
  · exact (c10_drivemap_keys exEnvChart exSources1 2).2.2
      ("R", [("m1f1song.ogg",
        ⟨⟨"R", "own", false⟩, "own", false, none, "own", "R", "m1f1song.ogg",
         [⟨"f1", "song.ogg", "text/plain", "2020-01-01T00:00:00.000Z", "m1", some 100⟩]⟩)])
      (by decide)
      ("m1f1song.ogg",
        ⟨⟨"R", "own", false⟩, "own", false, none, "own", "R", "m1f1song.ogg",
         [⟨"f1", "song.ogg", "text/plain", "2020-01-01T00:00:00.000Z", "m1", some 100⟩]⟩)
      (by decide)

/-- C5, at the failing input.  The repository compares the file's raw byte
count against `maxDownloadSizeMB` without converting units (line 145 of
`DriveScanner`), while the settings field is documented in megabytes and
`size` is documented as bytes.  A 60 MB file is excluded and warned as the
claim says — but a 1 MB file (1048576 bytes > 50) is excluded and warned as
well, contradicting the claim that files not exceeding the maximum are kept.
Sibling traversal does continue: the sibling `.chart` file still becomes the
sole candidate. -/
theorem c5_size_limit_units_bug :
    sizeTooBig 50 (exFileItem "f60" "big.ogg" "ogg" "m60" (some 62914560)) = true ∧
    sizeTooBig 50 (exFileItem "f1s" "small.ogg" "ogg" "m1s" (some 1048576)) = true ∧
    (processTask exEnv50 ["R"] exTaskR
      [exFileItem "f1s" "small.ogg" "ogg" "m1s" (some 1048576),
       exFileItem "f2" "notes.chart" "chart" "m2" (some 10)] exStR).sizeWarnings
      = ["small.ogg"] ∧
    ([exFileItem "f1s" "small.ogg" "ogg" "m1s" (some 1048576),
      exFileItem "f2" "notes.chart" "chart" "m2" (some 10)].foldl
        (classifyItem exEnv50 ["R"] exTaskR) (exStR, [])).2
      = [exFileItem "f2" "notes.chart" "chart" "m2" (some 10)] := by
  exact ⟨by decide, by decide, by decide, by decide⟩

end BridgeScanner

namespace BridgeScanner

/-- Outcomes of the Drive API calls behind one `readDriveFolder` invocation:
`list k` is the result of the k-th `drive.files.list` attempt (`none` = a
transient failure), `get` the result of the disambiguating `drive.files.get`
of the folder itself (`none` = that fetch also failed). -/
structure FolderFetch where
  list : Nat → Option (List DriveItem)
  get : Option DriveItem

/-- `_readDriveFolder` (lines 25-69 of `DriveAdapter.ts`), single page: a
failed list attempt retries with `retryCount + 1` unless `retryCount >= 5`,
which throws; a successful but empty listing triggers the disambiguating
direct fetch and the call fails when that fetch fails. -/
def readDriveFolderModel (f : FolderFetch) (retryCount : Nat) : Option (List DriveItem) :=
  match f.list retryCount with
  | some files =>
    if files.isEmpty then
      match f.get with
      | none => none
      | some _ => some files
    else some files
  | none =>
    if h : retryCount ≥ 5 then none
    else readDriveFolderModel f (retryCount + 1)
termination_by 6 - retryCount
decreasing_by omega

theorem readDriveFolderModel_fail_step (f : FolderFetch) (k : Nat) (hk : k < 5)
    (hf : f.list k = none) :
    readDriveFolderModel f k = readDriveFolderModel f (k + 1) := by
  rw [readDriveFolderModel, hf]
  simp [Nat.not_le.mpr hk]

/-- C6 (amended).  A folder listing fails with a listing error only after 6
consecutive transient failures (the code retries while `retryCount < 5`, so
attempts 0..5 all run); and when a listing fails during a crawl the failure is
confined to that folder: the recoverable-error flag is set, the popped task
contributes no items, and the crawl continues with the remaining frontier
entries (the rest of the work-list), the result map untouched apart from the
source-key initialization. -/
theorem c6_retry_exhaustion :
    (∀ f : FolderFetch, (∀ k, k ≤ 5 → f.list k = none) →
      readDriveFolderModel f 0 = none) ∧
    (∀ (env : ScanEnv) (cids : List String) (st : ScanState) (t : StackItem)
        (rest : List StackItem),
      st.scanStack = t :: rest → t.isShortcut = false → t.isFile = false →
      env.graph.listing t.self.id = none →
      (scanStep env cids st).errorOccurred = true ∧
      (scanStep env cids st).scanStack = rest ∧
      (scanStep env cids st).results
        = (if t.isSource = true then jsObjSet st.results t.source.driveID []
           else st.results)) := by
  constructor
  · intro f h
    have e5 : readDriveFolderModel f 5 = none := by
      rw [readDriveFolderModel, h 5 (by omega)]
      simp
    have e4 := readDriveFolderModel_fail_step f 4 (by omega) (h 4 (by omega))
    have e3 := readDriveFolderModel_fail_step f 3 (by omega) (h 3 (by omega))
    have e2 := readDriveFolderModel_fail_step f 2 (by omega) (h 2 (by omega))
    have e1 := readDriveFolderModel_fail_step f 1 (by omega) (h 1 (by omega))
    have e0 := readDriveFolderModel_fail_step f 0 (by omega) (h 0 (by omega))
    rw [e0, e1, e2, e3, e4, e5]
  · intro env cids st t rest h1 h2 h3 h4
    have hread : readItems env (addVisited t.self.id st.visitedDriveIDs) t = none := by
      simp [readItems, h3, h4]
    refine ⟨?_, ?_, ?_⟩ <;> simp [scanStep, h1, h2, hread]

def exGraphFail : DriveGraph := ⟨fun _ => none, exGetFile⟩

def exEnvFail : ScanEnv := ⟨exGraphFail, -1, fun s => s, 2⟩

/-- Witness for `c6_retry_exhaustion` at concrete inputs. -/
theorem c6_retry_exhaustion_witness :
    readDriveFolderModel ⟨fun _ => none, none⟩ 0 = none ∧
    (scanStep exEnvFail (sourceIDsOf exSources1) (initState exSources1)).errorOccurred
      = true ∧
    (scanStep exEnvFail (sourceIDsOf exSources1) (initState exSources1)).scanStack = [] ∧
    (scanStep exEnvFail (sourceIDsOf exSources1) (initState exSources1)).results
      = (if exTaskR.isSource = true then
          jsObjSet (initState exSources1).results exTaskR.source.driveID []
         else (initState exSources1).results) := by
  refine ⟨c6_retry_exhaustion.1 ⟨fun _ => none, none⟩ (fun k _ => rfl), ?_⟩
  exact c6_retry_exhaustion.2 exEnvFail (sourceIDsOf exSources1) (initState exSources1)
    exTaskR [] (by decide) rfl rfl rfl

/-- C6 as literally stated is false: after exactly 5 consecutive transient
failures the call does not fail — the code retries a 6th time and here the
6th attempt succeeds, so the listing is returned. -/
theorem c6_retry_counterexample :
    (fun k => if k < 5 then none else some [exGetFile "a"] :
      Nat → Option (List DriveItem)) 0 = none ∧
    (fun k => if k < 5 then none else some [exGetFile "a"] :
      Nat → Option (List DriveItem)) 1 = none ∧
    (fun k => if k < 5 then none else some [exGetFile "a"] :
      Nat → Option (List DriveItem)) 2 = none ∧
    (fun k => if k < 5 then none else some [exGetFile "a"] :
      Nat → Option (List DriveItem)) 3 = none ∧
    (fun k => if k < 5 then none else some [exGetFile "a"] :
      Nat → Option (List DriveItem)) 4 = none ∧
    readDriveFolderModel
      ⟨fun k => if k < 5 then none else some [exGetFile "a"], some (exGetFile "R")⟩ 0
      = some [exGetFile "a"] := by
  refine ⟨rfl, rfl, rfl, rfl, rfl, ?_⟩
  have hlast : readDriveFolderModel
      ⟨fun k => if k < 5 then none else some [exGetFile "a"], some (exGetFile "R")⟩ 5
      = some [exGetFile "a"] := by
    rw [readDriveFolderModel]
    simp [exGetFile]
  have s0 := readDriveFolderModel_fail_step
    ⟨fun k => if k < 5 then none else some [exGetFile "a"], some (exGetFile "R")⟩ 0
    (by omega) rfl
  have s1 := readDriveFolderModel_fail_step
    ⟨fun k => if k < 5 then none else some [exGetFile "a"], some (exGetFile "R")⟩ 1
    (by omega) rfl
  have s2 := readDriveFolderModel_fail_step
    ⟨fun k => if k < 5 then none else some [exGetFile "a"], some (exGetFile "R")⟩ 2
    (by omega) rfl
  have s3 := readDriveFolderModel_fail_step
    ⟨fun k => if k < 5 then none else some [exGetFile "a"], some (exGetFile "R")⟩ 3
    (by omega) rfl
  have s4 := readDriveFolderModel_fail_step
    ⟨fun k => if k < 5 then none else some [exGetFile "a"], some (exGetFile "R")⟩ 4
    (by omega) rfl
  rw [s0, s1, s2, s3, s4, hlast]

end BridgeScanner

namespace BridgeScanner

/-- Collaborators of `ChartsDownloader`: configured path, the external
`sanitize-filename` library, the operator's answer to each delete prompt, and
the success of each download stream and each 7z extraction. -/
structure MatEnv where
  chartFolderPath : String
  sanitize : String → String
  deleteAnswer : String → Bool
  fileOk : String → Bool
  extractOk : String → Bool

/-- Materializer state: the set of existing filesystem paths, counters, the
record of operator pauses, restored timestamps and completed bundles. -/
structure MatState where
  fs : List String
  downloadCount : Nat
  skipCount : Nat
  pauseCount : Nat
  extracted : List String
  mtimesSet : List String
  succeeded : List (String × String)
deriving DecidableEq, Repr

/-- `path.join` as used here (two segments). -/
def joinPath (a b : String) : String :=
  a ++ "/" ++ b

/-- `mkdirp.sync` / `fs.mkdirSync`: ensure the path exists. -/
def mkdirp (p : String) (fs : List String) : List String :=
  if fs.contains p then fs else p :: fs

/-- `fs.unlink`: remove a path. -/
def pathRemove (p : String) (fs : List String) : List String :=
  fs.filter fun q => !(q == p)

/-- Prefix test on paths (char-wise `String.startsWith`). -/
def strIsPrefixOf (p s : String) : Bool :=
  p.data.isPrefixOf s.data

def groupPathOf (env : MatEnv) (c : SimpleChart) : String :=
  joinPath env.chartFolderPath (env.sanitize c.source.ownerName)

/-- `join(groupPath, sanitizeFilename(itemName) + " [" + filesHash.substr(0,5) + "]")`. -/
def destFolderOf (env : MatEnv) (c : SimpleChart) : String :=
  joinPath (groupPathOf env c) (env.sanitize c.itemName ++ " [" ++ c.filesHash.take 5 ++ "]")

structure CtorResult where
  destinationFolder : String
  previouslyExists : Bool
deriving DecidableEq, Repr

/-- The `ChartDownloader` constructor (lines 74-87): create the group folder,
compute the destination name, test `previouslyExists`, create the destination
folder when new. -/
def chartDownloaderInit (env : MatEnv) (c : SimpleChart) (st : MatState) :
    CtorResult × MatState :=
  let fs1 := mkdirp (groupPathOf env c) st.fs
  let dest := destFolderOf env c
  let prev := fs1.contains dest
  let fs2 := if prev then fs1 else dest :: fs1
  (⟨dest, prev⟩, { st with fs := fs2 })

/-- `ChartDownloader.requestDownload` (lines 124-151): open the download
stream (counted), write the file and restore its modified time on success;
on a stream failure nothing is written and the returned flag is false. -/
def requestDownload (env : MatEnv) (dest : String) (f : DriveFile) (st : MatState) :
    MatState × Bool :=
  let st1 := { st with downloadCount := st.downloadCount + 1 }
  let filePath := joinPath dest (env.sanitize f.name)
  if env.fileOk f.id then
    ({ st1 with fs := filePath :: st1.fs, mtimesSet := filePath :: st1.mtimesSet }, true)
  else (st1, false)

def downloadFiles (env : MatEnv) (dest : String) :
    List DriveFile → MatState → MatState × Bool
  | [], st => (st, true)
  | f :: rest, st =>
    let r := requestDownload env dest f st
    if r.2 then downloadFiles env dest rest r.1 else (r.1, false)

/-- `ChartDownloader.download` (lines 94-118): download every file; for an
archive, run the extraction (on failure: report and block on `keyInPause` for
manual extraction), then — either way — delete the archive; deleting a
missing archive fails the bundle. -/
def chartDownload (env : MatEnv) (c : SimpleChart) (dest : String) (st : MatState) :
    MatState × Bool :=
  let r := downloadFiles env dest c.files st
  if !r.2 then (r.1, false)
  else if c.isArchive then
    match c.files.head? with
    | none => (r.1, false)
    | some f0 =>
      let archivePath := joinPath dest (env.sanitize f0.name)
      let st2 := if env.extractOk archivePath
        then { r.1 with extracted := archivePath :: r.1.extracted }
        else { r.1 with pauseCount := r.1.pauseCount + 1 }
      if st2.fs.contains archivePath then
        ({ st2 with fs := pathRemove archivePath st2.fs }, true)
      else (st2, false)
  else (r.1, true)

/-- The loop body of `ChartsDownloader.downloadCharts` (lines 43-57): build
the downloader (which creates the folders), skip when the destination already
exists, otherwise download; any failure abandons just this bundle. -/
def downloadChartsOne (env : MatEnv) (st : MatState) (c : SimpleChart) : MatState :=
  let r := chartDownloaderInit env c st
  if r.1.previouslyExists then { r.2 with skipCount := r.2.skipCount + 1 }
  else
    let d := chartDownload env c r.1.destinationFolder r.2
    if d.2 then
      { d.1 with succeeded := (c.filesHash, r.1.destinationFolder) :: d.1.succeeded }
    else d.1

/-- The per-drive pre-prompt of lines 27-39: if the group folder already
exists, ask whether to delete it; on confirmation remove it and everything
under it. -/
def deletePromptOne (env : MatEnv) (st : MatState)
    (entry : String × List (String × SimpleChart)) : MatState :=
  match entry.2.head? with
  | none => st
  | some hc =>
    let targetPath := joinPath env.chartFolderPath (env.sanitize hc.2.source.ownerName)
    if st.fs.contains targetPath && env.deleteAnswer targetPath then
      let keep := fun q => !(q == targetPath) && !(strIsPrefixOf (targetPath ++ "/") q)
      { st with fs := st.fs.filter keep }
    else st

def chartsOf (m : List (String × List (String × SimpleChart))) : List SimpleChart :=
  m.flatMap fun e => e.2.map Prod.snd

def totalCountOf (m : List (String × List (String × SimpleChart))) : Nat :=
  (m.map fun e => e.2.length).sum

/-- `ChartsDownloader.downloadCharts`: the delete-prompt pass over the drives,
then the download loop over every chart of every drive. -/
def downloadCharts (env : MatEnv) (m : List (String × List (String × SimpleChart)))
    (st : MatState) : MatState :=
  let st0 := m.foldl (deletePromptOne env) st
  (chartsOf m).foldl (downloadChartsOne env) st0

end BridgeScanner

namespace BridgeScanner

def slashCount (s : String) : Nat :=
  s.data.count '/'

theorem slashCount_append (a b : String) :
    slashCount (a ++ b) = slashCount a + slashCount b := by
  simp [slashCount, String.data_append]

theorem slashCount_joinPath (a b : String) :
    slashCount (joinPath a b) = slashCount a + 1 + slashCount b := by
  rw [joinPath, slashCount_append, slashCount_append]
  rfl

theorem slashCount_eq_zero {s : String} (h : ¬ '/' ∈ s.data) : slashCount s = 0 := by
  simp [slashCount, List.count_eq_zero]
  intro hmem
  exact absurd hmem h

theorem slashCount_group {env : MatEnv} {c : SimpleChart}
    (hsan : ∀ s, ¬ '/' ∈ (env.sanitize s).data) :
    slashCount (groupPathOf env c) = slashCount env.chartFolderPath + 1 := by
  rw [groupPathOf, slashCount_joinPath, slashCount_eq_zero (hsan _)]

theorem slashCount_dest {env : MatEnv} {c : SimpleChart}
    (hsan : ∀ s, ¬ '/' ∈ (env.sanitize s).data)
    (hhash : ¬ '/' ∈ (c.filesHash.take 5).data) :
    slashCount (destFolderOf env c) = slashCount env.chartFolderPath + 2 := by
  rw [destFolderOf, slashCount_joinPath, slashCount_group hsan]
  have h2 : slashCount (env.sanitize c.itemName ++ " [" ++ c.filesHash.take 5 ++ "]") = 0 := by
    rw [slashCount_append, slashCount_append, slashCount_append,
      slashCount_eq_zero (hsan _), slashCount_eq_zero hhash]
    rfl
  omega

theorem mem_pathRemove {p a : String} {fs : List String}
    (hmem : p ∈ fs) (hne : p ≠ a) : p ∈ pathRemove a fs := by
  rw [pathRemove, List.mem_filter]
  exact ⟨hmem, by simp [hne]⟩

theorem pathRemove_not_mem (a : String) (fs : List String) : a ∉ pathRemove a fs := by
  rw [pathRemove]
  intro h
  rw [List.mem_filter] at h
  simp at h

theorem requestDownload_fs_mem {env : MatEnv} {dest : String} {f : DriveFile}
    {st : MatState} {p : String} (hmem : p ∈ st.fs) :
    p ∈ (requestDownload env dest f st).1.fs := by
  rw [requestDownload]
  by_cases h : env.fileOk f.id = true
  · simp only [h, if_pos]
    exact List.mem_cons_of_mem _ hmem
  · simp only [h, Bool.false_eq_true, if_false]
    exact hmem

theorem downloadFiles_fs_mem (env : MatEnv) (dest : String) :
    ∀ (l : List DriveFile) (st : MatState) (p : String), p ∈ st.fs →
    p ∈ (downloadFiles env dest l st).1.fs := by
  intro l
  induction l with
  | nil => intro st p hmem; exact hmem
  | cons f rest ih =>
    intro st p hmem
    rw [downloadFiles]
    by_cases h : (requestDownload env dest f st).2 = true
    · simp only [h, if_pos]
      exact ih _ _ (requestDownload_fs_mem hmem)
    · simp only [h, Bool.false_eq_true, if_false]
      exact requestDownload_fs_mem hmem

theorem chartDownload_fs_mem {env : MatEnv} {c : SimpleChart} {dest : String}
    {st : MatState} {p : String} (hsan : ∀ s, ¬ '/' ∈ (env.sanitize s).data)
    (hpd : slashCount p < slashCount dest + 1) (hmem : p ∈ st.fs) :
    p ∈ (chartDownload env c dest st).1.fs := by
  rw [chartDownload]
  have hdf := downloadFiles_fs_mem env dest c.files st p hmem
  by_cases hok : (downloadFiles env dest c.files st).2 = true
  · simp only [hok, Bool.not_true, Bool.false_eq_true, if_false]
    by_cases harch : c.isArchive = true
    · simp only [harch, if_pos]
      cases hh : c.files.head? with
      | none => exact hdf
      | some f0 =>
        have hane : p ≠ joinPath dest (env.sanitize f0.name) := by
          intro heq
          rw [heq, slashCount_joinPath, slashCount_eq_zero (hsan _)] at hpd
          omega
        by_cases hex : env.extractOk (joinPath dest (env.sanitize f0.name)) = true
        · simp only [hex, if_pos]
          by_cases hcont : ({ (downloadFiles env dest c.files st).1 with
              extracted := joinPath dest (env.sanitize f0.name)
                :: (downloadFiles env dest c.files st).1.extracted } :
              MatState).fs.contains (joinPath dest (env.sanitize f0.name)) = true
          · simp only [hcont, if_pos]
            exact mem_pathRemove hdf hane
          · simp only [hcont, Bool.false_eq_true, if_false]
            exact hdf
        · simp only [hex, Bool.false_eq_true, if_false]
          by_cases hcont : ({ (downloadFiles env dest c.files st).1 with
              pauseCount := (downloadFiles env dest c.files st).1.pauseCount + 1 } :
              MatState).fs.contains (joinPath dest (env.sanitize f0.name)) = true
          · simp only [hcont, if_pos]
            exact mem_pathRemove hdf hane
          · simp only [hcont, Bool.false_eq_true, if_false]
            exact hdf
    · simp only [harch, Bool.false_eq_true, if_false]
      exact hdf
  · simp only [Bool.not_eq_true', Bool.not_eq_false] at hok
    simp only [hok, Bool.not_false, if_pos]
    exact hdf

end BridgeScanner

namespace BridgeScanner

theorem downloadChartsOne_fs_mem {env : MatEnv} {st : MatState} {c : SimpleChart} {p : String}
    (hsan : ∀ s, ¬ '/' ∈ (env.sanitize s).data)
    (hhash : ¬ '/' ∈ (c.filesHash.take 5).data)
    (hp : slashCount p ≤ slashCount env.chartFolderPath + 2)
    (hmem : p ∈ st.fs) : p ∈ (downloadChartsOne env st c).fs := by
  rw [downloadChartsOne]
  have hmk : p ∈ mkdirp (groupPathOf env c) st.fs := by
    rw [mkdirp]
    by_cases hg : groupPathOf env c ∈ st.fs
    · simpa [hg] using hmem
    · simpa [hg] using List.mem_cons_of_mem _ hmem
  have hmem1 : p ∈ (chartDownloaderInit env c st).2.fs := by
    rw [chartDownloaderInit]
    simp only
    by_cases hprev : destFolderOf env c ∈ mkdirp (groupPathOf env c) st.fs
    · simpa [hprev] using hmk
    · simpa [hprev] using List.mem_cons_of_mem _ hmk
  by_cases hprev : (chartDownloaderInit env c st).1.previouslyExists = true
  · simpa [hprev] using hmem1
  · simp only [hprev, Bool.false_eq_true, if_false]
    have hpd : slashCount p < slashCount (destFolderOf env c) + 1 := by
      rw [slashCount_dest hsan hhash]
      omega
    have hcd := @chartDownload_fs_mem env c
      ((chartDownloaderInit env c st).1.destinationFolder)
      ((chartDownloaderInit env c st).2) p hsan (by
        have : (chartDownloaderInit env c st).1.destinationFolder = destFolderOf env c := rfl
        rw [this]
        exact hpd) hmem1
    by_cases hok : (chartDownload env c (chartDownloaderInit env c st).1.destinationFolder
        (chartDownloaderInit env c st).2).2 = true
    · simpa [hok] using hcd
    · simpa [hok] using hcd

theorem downloadChartsOne_estab {env : MatEnv} {st : MatState} {c : SimpleChart}
    (hsan : ∀ s, ¬ '/' ∈ (env.sanitize s).data)
    (hhash : ¬ '/' ∈ (c.filesHash.take 5).data) :
    destFolderOf env c ∈ (downloadChartsOne env st c).fs ∧
    groupPathOf env c ∈ (downloadChartsOne env st c).fs := by
  rw [downloadChartsOne]
  have hg1 : groupPathOf env c ∈ mkdirp (groupPathOf env c) st.fs := by
    rw [mkdirp]
    by_cases hg : groupPathOf env c ∈ st.fs
    · simp [hg]
    · simp [hg]
  have hmemg : groupPathOf env c ∈ (chartDownloaderInit env c st).2.fs := by
    rw [chartDownloaderInit]
    simp only
    by_cases hprev : destFolderOf env c ∈ mkdirp (groupPathOf env c) st.fs
    · simpa [hprev] using hg1
    · simpa [hprev] using List.mem_cons_of_mem _ hg1
  have hmemd : destFolderOf env c ∈ (chartDownloaderInit env c st).2.fs := by
    rw [chartDownloaderInit]
    simp only
    by_cases hprev : destFolderOf env c ∈ mkdirp (groupPathOf env c) st.fs
    · simp [hprev]
    · simp [hprev]
  have hpd : slashCount (destFolderOf env c) < slashCount (destFolderOf env c) + 1 := by omega
  have hpg : slashCount (groupPathOf env c) < slashCount (destFolderOf env c) + 1 := by
    rw [slashCount_dest hsan hhash, slashCount_group hsan]
    omega
  by_cases hprev : (chartDownloaderInit env c st).1.previouslyExists = true
  · constructor
    · simpa [hprev] using hmemd
    · simpa [hprev] using hmemg
  · simp only [hprev, Bool.false_eq_true, if_false]
    have hd := @chartDownload_fs_mem env c
      ((chartDownloaderInit env c st).1.destinationFolder)
      ((chartDownloaderInit env c st).2) (destFolderOf env c) hsan hpd hmemd
    have hgg := @chartDownload_fs_mem env c
      ((chartDownloaderInit env c st).1.destinationFolder)
      ((chartDownloaderInit env c st).2) (groupPathOf env c) hsan hpg hmemg
    by_cases hok : (chartDownload env c (chartDownloaderInit env c st).1.destinationFolder
        (chartDownloaderInit env c st).2).2 = true
    · exact ⟨by simpa [hok] using hd, by simpa [hok] using hgg⟩
    · exact ⟨by simpa [hok] using hd, by simpa [hok] using hgg⟩

theorem foldl_download_fs_mem (env : MatEnv)
    (hsan : ∀ s, ¬ '/' ∈ (env.sanitize s).data) :
    ∀ (cs : List SimpleChart) (st : MatState) (p : String),
    (∀ c ∈ cs, ¬ '/' ∈ ((c : SimpleChart).filesHash.take 5).data) →
    slashCount p ≤ slashCount env.chartFolderPath + 2 →
    p ∈ st.fs → p ∈ (cs.foldl (downloadChartsOne env) st).fs := by
  intro cs
  induction cs with
  | nil => intro st p _ _ hmem; exact hmem
  | cons c rest ih =>
    intro st p hall hp hmem
    rw [List.foldl_cons]
    exact ih _ _ (fun x hx => hall x (List.mem_cons_of_mem c hx)) hp
      (downloadChartsOne_fs_mem hsan (hall c (List.mem_cons_self c rest)) hp hmem)

theorem foldl_download_estab (env : MatEnv)
    (hsan : ∀ s, ¬ '/' ∈ (env.sanitize s).data) :
    ∀ (cs : List SimpleChart) (st : MatState),
    (∀ c ∈ cs, ¬ '/' ∈ ((c : SimpleChart).filesHash.take 5).data) →
    ∀ c0 ∈ cs, destFolderOf env c0 ∈ (cs.foldl (downloadChartsOne env) st).fs ∧
      groupPathOf env c0 ∈ (cs.foldl (downloadChartsOne env) st).fs := by
  intro cs
  induction cs with
  | nil => intro st _ c0 h0; simp at h0
  | cons c rest ih =>
    intro st hall c0 h0
    rw [List.foldl_cons]
    rcases List.mem_cons.mp h0 with h0 | h0
    · subst h0
      have hest := @downloadChartsOne_estab env st c0
        hsan (hall c0 (List.mem_cons_self c0 rest))
      have hhash0 := hall c0 (List.mem_cons_self c0 rest)
      constructor
      · exact foldl_download_fs_mem env hsan rest _ _
          (fun x hx => hall x (List.mem_cons_of_mem c0 hx))
          (by rw [slashCount_dest hsan hhash0]) hest.1
      · exact foldl_download_fs_mem env hsan rest _ _
          (fun x hx => hall x (List.mem_cons_of_mem c0 hx))
          (by rw [slashCount_group hsan]; omega) hest.2
    · exact ih _ (fun x hx => hall x (List.mem_cons_of_mem c hx)) c0 h0

end BridgeScanner

namespace BridgeScanner

theorem downloadChartsOne_skip {env : MatEnv} {st : MatState} {c : SimpleChart}
    (hg : groupPathOf env c ∈ st.fs) (hd : destFolderOf env c ∈ st.fs) :
    downloadChartsOne env st c = { st with skipCount := st.skipCount + 1 } := by
  rw [downloadChartsOne, chartDownloaderInit]
  simp [mkdirp, hg, hd]

theorem foldl_download_allskip (env : MatEnv) :
    ∀ (cs : List SimpleChart) (st : MatState),
    (∀ c ∈ cs, groupPathOf env c ∈ st.fs ∧ destFolderOf env c ∈ st.fs) →
    cs.foldl (downloadChartsOne env) st = { st with skipCount := st.skipCount + cs.length } := by
  intro cs
  induction cs with
  | nil => intro st _; simp
  | cons c rest ih =>
    intro st hall
    rw [List.foldl_cons,
      downloadChartsOne_skip (hall c (List.mem_cons_self c rest)).1
        (hall c (List.mem_cons_self c rest)).2,
      ih { st with skipCount := st.skipCount + 1 }
        (fun x hx => hall x (List.mem_cons_of_mem c hx))]
    have harith : st.skipCount + 1 + rest.length = st.skipCount + (rest.length + 1) := by omega
    simp [harith]

theorem deletePromptOne_noop {env : MatEnv} {st : MatState}
    {e : String × List (String × SimpleChart)}
    (hdel : ∀ p, env.deleteAnswer p = false) : deletePromptOne env st e = st := by
  rw [deletePromptOne]
  cases e.2.head? with
  | none => rfl
  | some hc => simp [hdel]

theorem foldl_prompt_noop (env : MatEnv)
    (hdel : ∀ p, env.deleteAnswer p = false) :
    ∀ (m : List (String × List (String × SimpleChart))) (st : MatState),
    m.foldl (deletePromptOne env) st = st := by
  intro m
  induction m with
  | nil => intro st; rfl
  | cons e rest ih =>
    intro st
    rw [List.foldl_cons, deletePromptOne_noop hdel, ih]

theorem totalCountOf_eq_length (m : List (String × List (String × SimpleChart))) :
    totalCountOf m = (chartsOf m).length := by
  induction m with
  | nil => rfl
  | cons e rest ih =>
    simp [totalCountOf, chartsOf] at ih ⊢
    omega

/-- C2: running the Materializer a second time against unchanged Crawler
output (operator declining the delete prompts, the sanitizer producing
slash-free names, fingerprint prefixes slash-free) performs zero new
downloads: the second run equals the first-run state with every bundle
counted as skipped — in particular the download counter and the filesystem
are untouched. -/
theorem c2_idempotent_rerun (env : MatEnv)
    (m : List (String × List (String × SimpleChart))) (st0 : MatState)
    (hdel : ∀ p, env.deleteAnswer p = false)
    (hsan : ∀ s, ¬ '/' ∈ (env.sanitize s).data)
    (hhash : ∀ c ∈ chartsOf m, ¬ '/' ∈ ((c : SimpleChart).filesHash.take 5).data) :
    downloadCharts env m (downloadCharts env m st0)
      = { downloadCharts env m st0 with
          skipCount := (downloadCharts env m st0).skipCount + totalCountOf m } ∧
    (downloadCharts env m (downloadCharts env m st0)).downloadCount
      = (downloadCharts env m st0).downloadCount ∧
    (downloadCharts env m (downloadCharts env m st0)).fs
      = (downloadCharts env m st0).fs := by
  have hests : ∀ c ∈ chartsOf m,
      groupPathOf env c ∈ (downloadCharts env m st0).fs ∧
      destFolderOf env c ∈ (downloadCharts env m st0).fs := by
    intro c hc
    have := foldl_download_estab env hsan (chartsOf m)
      (m.foldl (deletePromptOne env) st0) hhash c hc
    rw [downloadCharts]
    exact ⟨this.2, this.1⟩
  have hmain : downloadCharts env m (downloadCharts env m st0)
      = { downloadCharts env m st0 with
          skipCount := (downloadCharts env m st0).skipCount + totalCountOf m } := by
    conv_lhs => rw [downloadCharts]
    rw [foldl_prompt_noop env hdel,
      foldl_download_allskip env (chartsOf m) (downloadCharts env m st0) hests,
      totalCountOf_eq_length]
  exact ⟨hmain, by rw [hmain], by rw [hmain]⟩

def exMatEnv : MatEnv := ⟨"root", fun _ => "x", fun _ => false, fun _ => true, fun _ => true⟩

def exChartA : SimpleChart :=
  ⟨⟨"R", "own", false⟩, "song", false, none, "own", "R", "h1234567",
    [⟨"f1", "a.ogg", "", "", "m", some 5⟩]⟩

def exMatMap : List (String × List (String × SimpleChart)) := [("R", [("h1234567", exChartA)])]

def exMatSt0 : MatState := ⟨[], 0, 0, 0, [], [], []⟩

/-- Witness for `c2_idempotent_rerun` at a concrete one-bundle map. -/
theorem c2_idempotent_rerun_witness :
    downloadCharts exMatEnv exMatMap (downloadCharts exMatEnv exMatMap exMatSt0)
      = { downloadCharts exMatEnv exMatMap exMatSt0 with
          skipCount := (downloadCharts exMatEnv exMatMap exMatSt0).skipCount
            + totalCountOf exMatMap } ∧
    (downloadCharts exMatEnv exMatMap (downloadCharts exMatEnv exMatMap exMatSt0)).downloadCount
      = (downloadCharts exMatEnv exMatMap exMatSt0).downloadCount ∧
    (downloadCharts exMatEnv exMatMap (downloadCharts exMatEnv exMatMap exMatSt0)).fs
      = (downloadCharts exMatEnv exMatMap exMatSt0).fs :=
  c2_idempotent_rerun exMatEnv exMatMap exMatSt0 (fun _ => rfl)
    (fun _ => (by decide : ('/' : Char) ∉ ("x" : String).data)) (by decide)

end BridgeScanner

namespace BridgeScanner

theorem mem_mkdirp {p q : String} {fs : List String} (h : p ∈ mkdirp q fs) :
    p ∈ fs ∨ p = q := by
  rw [mkdirp] at h
  by_cases hq : q ∈ fs
  · left; simpa [hq] using h
  · have h' : p ∈ q :: fs := by simpa [hq] using h
    rcases List.mem_cons.mp h' with h' | h'
    · right; exact h'
    · left; exact h'

theorem joinPath_ne_left (a b : String) : joinPath a b ≠ a := by
  intro h
  have := congrArg (fun s => s.data.length) h
  simp [joinPath, String.data_append] at this

/-- C7 (amended).  When materializing a bundle fails partway (here: its first
download stream fails), only that bundle is abandoned — it is counted neither
as skipped nor as succeeded and the fold continues with the next bundle — but
the destination folder created by the `ChartDownloader` constructor REMAINS
on disk (the code has no cleanup path), contrary to the claim that no partial
destination folder is left behind. -/
theorem c7_partial_failure (env : MatEnv) (st : MatState) (c : SimpleChart)
    (f : DriveFile) (rest : List DriveFile) (cs : List SimpleChart)
    (hfiles : c.files = f :: rest)
    (hfail : env.fileOk f.id = false)
    (hnew : destFolderOf env c ∉ st.fs) :
    (downloadChartsOne env st c).skipCount = st.skipCount ∧
    (downloadChartsOne env st c).succeeded = st.succeeded ∧
    destFolderOf env c ∈ (downloadChartsOne env st c).fs ∧
    (c :: cs).foldl (downloadChartsOne env) st
      = cs.foldl (downloadChartsOne env) (downloadChartsOne env st c) := by
  have hprevm : destFolderOf env c ∉ mkdirp (groupPathOf env c) st.fs := by
    intro hmem
    rcases mem_mkdirp hmem with hmem | hmem
    · exact hnew hmem
    · exact joinPath_ne_left _ _ (by rw [destFolderOf] at hmem; exact hmem)
  have hctor : chartDownloaderInit env c st
      = (⟨destFolderOf env c, false⟩,
         { st with fs := destFolderOf env c :: mkdirp (groupPathOf env c) st.fs }) := by
    rw [chartDownloaderInit]
    simp [hprevm]
  have hone : downloadChartsOne env st c = { st with fs := destFolderOf env c :: mkdirp (groupPathOf env c) st.fs, downloadCount := st.downloadCount + 1 } := by
    rw [downloadChartsOne, hctor]
    simp only [Bool.false_eq_true, if_false]
    rw [chartDownload, hfiles, downloadFiles, requestDownload]
    simp [hfail]
  refine ⟨by rw [hone], by rw [hone], by rw [hone]; exact List.mem_cons_self _ _, ?_⟩
  rw [List.foldl_cons]

def exMatEnvFail : MatEnv := ⟨"root", fun _ => "x", fun _ => false, fun _ => false, fun _ => true⟩

/-- Witness for `c7_partial_failure` at a concrete failing bundle. -/
theorem c7_partial_failure_witness :
    (downloadChartsOne exMatEnvFail exMatSt0 exChartA).skipCount = exMatSt0.skipCount ∧
    (downloadChartsOne exMatEnvFail exMatSt0 exChartA).succeeded = exMatSt0.succeeded ∧
    destFolderOf exMatEnvFail exChartA ∈ (downloadChartsOne exMatEnvFail exMatSt0 exChartA).fs ∧
    ([exChartA] : List SimpleChart).foldl (downloadChartsOne exMatEnvFail) exMatSt0
      = ([] : List SimpleChart).foldl (downloadChartsOne exMatEnvFail)
          (downloadChartsOne exMatEnvFail exMatSt0 exChartA) :=
  c7_partial_failure exMatEnvFail exMatSt0 exChartA
    ⟨"f1", "a.ogg", "", "", "m", some 5⟩ [] [] rfl rfl (by decide)

/-- C7 as literally stated is false: after a failed download the bundle's
destination folder is still present on disk (and the bundle was neither
skipped nor succeeded). -/
theorem c7_partial_failure_counterexample :
    (downloadCharts exMatEnvFail exMatMap exMatSt0).skipCount = 0 ∧
    (downloadCharts exMatEnvFail exMatMap exMatSt0).succeeded = [] ∧
    (downloadCharts exMatEnvFail exMatMap exMatSt0).fs.contains
      (destFolderOf exMatEnvFail exChartA) = true := by
  exact ⟨by decide, by decide, by decide⟩

theorem contains_pathRemove_self (a : String) (fs : List String) :
    (pathRemove a fs).contains a = false := by
  cases h : (pathRemove a fs).contains a
  · rfl
  · exact absurd (by simpa using h) (pathRemove_not_mem a fs)

/-- C8 (amended).  For an archive bundle whose single file downloads
successfully: on successful extraction the archive is deleted from the
destination folder; on extraction failure the run blocks once on operator
acknowledgement for manual extraction — and then the archive is deleted as
well (the `unlink` at line 110 runs on both paths; the pause message even
tells the operator not to delete it so the program can).  Either way the
bundle completes. -/
theorem c8_archive_extraction (env : MatEnv) (c : SimpleChart) (dest : String)
    (st : MatState) (f0 : DriveFile)
    (hfiles : c.files = [f0]) (harch : c.isArchive = true)
    (hok : env.fileOk f0.id = true) :
    (chartDownload env c dest st).1.fs.contains
      (joinPath dest (env.sanitize f0.name)) = false ∧
    (chartDownload env c dest st).2 = true ∧
    (env.extractOk (joinPath dest (env.sanitize f0.name)) = true →
      (chartDownload env c dest st).1.pauseCount = st.pauseCount ∧
      (chartDownload env c dest st).1.extracted
        = joinPath dest (env.sanitize f0.name) :: st.extracted) ∧
    (env.extractOk (joinPath dest (env.sanitize f0.name)) = false →
      (chartDownload env c dest st).1.pauseCount = st.pauseCount + 1) := by
  have hdl : downloadFiles env dest c.files st = ({ st with downloadCount := st.downloadCount + 1, fs := joinPath dest (env.sanitize f0.name) :: st.fs, mtimesSet := joinPath dest (env.sanitize f0.name) :: st.mtimesSet }, true) := by
    rw [hfiles, downloadFiles, requestDownload]
    simp [hok, downloadFiles]
  cases hex : env.extractOk (joinPath dest (env.sanitize f0.name)) with
  | true =>
    have hcd : chartDownload env c dest st = ({ st with downloadCount := st.downloadCount + 1, fs := pathRemove (joinPath dest (env.sanitize f0.name)) (joinPath dest (env.sanitize f0.name) :: st.fs), mtimesSet := joinPath dest (env.sanitize f0.name) :: st.mtimesSet, extracted := joinPath dest (env.sanitize f0.name) :: st.extracted }, true) := by
      rw [chartDownload, hdl]
      simp [harch, hfiles, hex]
    rw [hcd]
    refine ⟨contains_pathRemove_self _ _, rfl, fun _ => ⟨rfl, rfl⟩, fun hco => ?_⟩
    simp [hex] at hco
  | false =>
    have hcd : chartDownload env c dest st = ({ st with downloadCount := st.downloadCount + 1, fs := pathRemove (joinPath dest (env.sanitize f0.name)) (joinPath dest (env.sanitize f0.name) :: st.fs), mtimesSet := joinPath dest (env.sanitize f0.name) :: st.mtimesSet, pauseCount := st.pauseCount + 1 }, true) := by
      rw [chartDownload, hdl]
      simp [harch, hfiles, hex]
    rw [hcd]
    refine ⟨contains_pathRemove_self _ _, rfl, fun hco => ?_, fun _ => rfl⟩
    simp [hex] at hco

def exMatEnvNoExtract : MatEnv :=
  ⟨"root", fun _ => "x", fun _ => false, fun _ => true, fun _ => false⟩

def exArchChart : SimpleChart :=
  ⟨⟨"R", "own", false⟩, "pack.zip", true, none, "own", "R", "h7654321",
    [⟨"z1", "pack.zip", "", "", "m", some 5⟩]⟩

/-- Witness for `c8_archive_extraction`: one successful-extraction run and one
failed-extraction run, concretely. -/
theorem c8_archive_extraction_witness :
    (chartDownload exMatEnv exArchChart "d" exMatSt0).1.fs.contains
      (joinPath "d" (exMatEnv.sanitize "pack.zip")) = false ∧
    (chartDownload exMatEnv exArchChart "d" exMatSt0).2 = true ∧
    (chartDownload exMatEnvNoExtract exArchChart "d" exMatSt0).1.fs.contains
      (joinPath "d" (exMatEnvNoExtract.sanitize "pack.zip")) = false ∧
    (chartDownload exMatEnvNoExtract exArchChart "d" exMatSt0).1.pauseCount
      = exMatSt0.pauseCount + 1 := by
  refine ⟨?_, ?_, ?_, ?_⟩
  · exact (c8_archive_extraction exMatEnv exArchChart "d" exMatSt0
      ⟨"z1", "pack.zip", "", "", "m", some 5⟩ rfl rfl rfl).1
  · exact (c8_archive_extraction exMatEnv exArchChart "d" exMatSt0
      ⟨"z1", "pack.zip", "", "", "m", some 5⟩ rfl rfl rfl).2.1
  · exact (c8_archive_extraction exMatEnvNoExtract exArchChart "d" exMatSt0
      ⟨"z1", "pack.zip", "", "", "m", some 5⟩ rfl rfl rfl).1
  · exact (c8_archive_extraction exMatEnvNoExtract exArchChart "d" exMatSt0
      ⟨"z1", "pack.zip", "", "", "m", some 5⟩ rfl rfl rfl).2.2.2 rfl

/-- C8 as literally stated is false: after a FAILED extraction the archive is
not left in place — the operator pause happens, and then the archive file is
deleted anyway. -/
theorem c8_archive_extraction_counterexample :
    exMatEnvNoExtract.extractOk
      (joinPath (destFolderOf exMatEnvNoExtract exArchChart)
        (exMatEnvNoExtract.sanitize "pack.zip")) = false ∧
    (downloadCharts exMatEnvNoExtract [("R", [("h7654321", exArchChart)])] exMatSt0).pauseCount
      = 1 ∧
    (downloadCharts exMatEnvNoExtract [("R", [("h7654321", exArchChart)])] exMatSt0).fs.contains
      (joinPath (destFolderOf exMatEnvNoExtract exArchChart)
        (exMatEnvNoExtract.sanitize "pack.zip")) = false ∧
    (downloadCharts exMatEnvNoExtract [("R", [("h7654321", exArchChart)])] exMatSt0).succeeded
      = [("h7654321", destFolderOf exMatEnvNoExtract exArchChart)] := by
  exact ⟨rfl, by decide, by decide, by decide⟩

end BridgeScanner

namespace BridgeScanner

/-- Finiteness/shape assumptions about the remote graph under which the crawl
terminates: a finite id universe, a rank function strictly decreasing along
folder-children edges (Drive folder containment is a forest), a bound on
listing lengths and ranks, all indirection targets inside the universe, and
single-file fetches never producing folder items. -/
structure ScanBounds (env : ScanEnv) where
  ids : Finset String
  rank : String → Nat
  degree : Nat
  maxRank : Nat
  degree_pos : 1 ≤ degree
  listing_len : ∀ id l, env.graph.listing id = some l → l.length ≤ degree
  listing_rank : ∀ id l, env.graph.listing id = some l →
    ∀ i ∈ l, i.mimeType = folderMime → rank i.id < rank id
  rank_le : ∀ id, rank id ≤ maxRank
  listing_target : ∀ id l, env.graph.listing id = some l →
    ∀ i ∈ l, i.mimeType = shortcutMime → targetIdOf i ∈ ids
  getFile_not_folder : ∀ id, (env.graph.getFile id).mimeType ≠ folderMime
  getFile_target : ∀ id, (env.graph.getFile id).mimeType = shortcutMime →
    targetIdOf (env.graph.getFile id) ∈ ids

def taskWeight {env : ScanEnv} (B : ScanBounds env) (t : StackItem) : Nat :=
  if t.isShortcut then 1 else (B.degree + 2) ^ (B.rank t.self.id + 1)

def stackWeight {env : ScanEnv} (B : ScanBounds env) (l : List StackItem) : Nat :=
  (l.map (taskWeight B)).sum

def unvisitedCount {env : ScanEnv} (B : ScanBounds env) (st : ScanState) : Nat :=
  (B.ids.filter fun i => i ∉ st.visitedDriveIDs).card

/-- The termination measure: each step of the crawl strictly decreases it. -/
def scanMeasure {env : ScanEnv} (B : ScanBounds env) (st : ScanState) : Nat :=
  (B.degree * (B.degree + 2) ^ (B.maxRank + 1) + 2) * unvisitedCount B st
    + stackWeight B st.scanStack

theorem mem_addVisited_of_mem {id x : String} {l : List String} (h : x ∈ l) :
    x ∈ addVisited id l := by
  rw [addVisited]
  by_cases hc : id ∈ l
  · simpa [hc] using h
  · simpa [hc] using List.mem_cons_of_mem _ h

theorem mem_addVisited_self (id : String) (l : List String) : id ∈ addVisited id l := by
  rw [addVisited]
  by_cases hc : id ∈ l
  · simpa [hc] using hc
  · simp [hc]

theorem classifyItem_visited_mono {env : ScanEnv} {cids : List String} {t : StackItem}
    {acc : ScanState × List DriveItem} {item : DriveItem} {x : String}
    (h : x ∈ acc.1.visitedDriveIDs) :
    x ∈ (classifyItem env cids t acc item).1.visitedDriveIDs := by
  obtain ⟨st, cand⟩ := acc
  have hadd := @mem_addVisited_of_mem item.id _ _ h
  by_cases hm : item.id ∈ cids
  · cases hb : t.source.isFileSource <;> simpa [classifyItem, hm, hb] using h
  · by_cases h3 : item.mimeType = folderMime
    · cases hb : t.source.isFileSource <;> simpa [classifyItem, hm, hb, h3] using hadd
    · by_cases h4 : sizeTooBig env.maxDownloadSizeMB item = true
      · cases hb : t.source.isFileSource <;> simpa [classifyItem, hm, hb, h3, h4] using hadd
      · by_cases h5 : item.mimeType = shortcutMime
        · cases hb : t.source.isFileSource <;>
            simpa [classifyItem, hm, hb, h3, h4, h5, shortcutMime_ne_folderMime] using hadd
        · by_cases h6 : isArchiveItem item = true
          · cases hb : t.source.isFileSource <;>
              simpa [classifyItem, hm, hb, h3, h4, h5, h6] using hadd
          · by_cases h7 : item.fullFileExtension.isSome
            · cases hb : t.source.isFileSource <;>
                simpa [classifyItem, hm, hb, h3, h4, h5, h6, h7] using hadd
            · cases hb : t.source.isFileSource <;>
                simpa [classifyItem, hm, hb, h3, h4, h5, h6, h7] using hadd

theorem foldl_classify_visited_mono (env : ScanEnv) (cids : List String) (t : StackItem) :
    ∀ (items : List DriveItem) (acc : ScanState × List DriveItem) (x : String),
    x ∈ acc.1.visitedDriveIDs →
    x ∈ (items.foldl (classifyItem env cids t) acc).1.visitedDriveIDs := by
  intro items
  induction items with
  | nil => intro acc x h; exact h
  | cons i rest ih =>
    intro acc x h
    exact ih _ _ (classifyItem_visited_mono h)

theorem processTask_visited_mono {env : ScanEnv} {cids : List String} {t : StackItem}
    {items : List DriveItem} {st : ScanState} {x : String}
    (h : x ∈ st.visitedDriveIDs) :
    x ∈ (processTask env cids t items st).visitedDriveIDs := by
  unfold processTask
  have := foldl_classify_visited_mono env cids t items (st, []) x h
  by_cases hc : appearsToBeChartFolder
      (((items.foldl (classifyItem env cids t) (st, [])).2).map
        fun f => f.fullFileExtension.getD "") = true
  · simpa [hc] using this
  · simpa [hc] using this

theorem scanStep_visited_mono {env : ScanEnv} {cids : List String} {st : ScanState}
    {x : String} (h : x ∈ st.visitedDriveIDs) :
    x ∈ (scanStep env cids st).visitedDriveIDs := by
  cases hstk : st.scanStack with
  | nil => simpa [scanStep, hstk] using h
  | cons t rest =>
    by_cases hskip : t.isShortcut = true ∧ t.self.id ∈ st.visitedDriveIDs
    · simpa [scanStep, hstk, hskip] using h
    · cases hread : readItems env (addVisited t.self.id st.visitedDriveIDs) t with
      | none => simpa [scanStep, hstk, hskip, hread] using mem_addVisited_of_mem h
      | some items =>
        simp only [scanStep, hstk, hread]
        rw [if_neg (by simpa using hskip)]
        exact processTask_visited_mono (mem_addVisited_of_mem h)

end BridgeScanner

namespace BridgeScanner

theorem unvisitedCount_mono {env : ScanEnv} (B : ScanBounds env) {st st' : ScanState}
    (hsub : ∀ x ∈ st.visitedDriveIDs, x ∈ st'.visitedDriveIDs) :
    unvisitedCount B st' ≤ unvisitedCount B st := by
  apply Finset.card_le_card
  intro x hx
  rw [Finset.mem_filter] at hx ⊢
  refine ⟨hx.1, fun hmem => hx.2 (hsub x hmem)⟩

theorem unvisitedCount_lt {env : ScanEnv} (B : ScanBounds env) {st st' : ScanState}
    {q : String} (hsub : ∀ x ∈ st.visitedDriveIDs, x ∈ st'.visitedDriveIDs)
    (hq : q ∈ B.ids) (hqo : q ∉ st.visitedDriveIDs) (hqn : q ∈ st'.visitedDriveIDs) :
    unvisitedCount B st' < unvisitedCount B st := by
  apply Finset.card_lt_card
  rw [Finset.ssubset_iff_of_subset]
  · exact ⟨q, by rw [Finset.mem_filter]; exact ⟨hq, hqo⟩,
      by rw [Finset.mem_filter]; intro h; exact h.2 hqn⟩
  · intro x hx
    rw [Finset.mem_filter] at hx ⊢
    exact ⟨hx.1, fun hmem => hx.2 (hsub x hmem)⟩

theorem stackWeight_cons {env : ScanEnv} (B : ScanBounds env) (x : StackItem)
    (l : List StackItem) : stackWeight B (x :: l) = taskWeight B x + stackWeight B l := by
  simp [stackWeight]

theorem stackWeight_append_one {env : ScanEnv} (B : ScanBounds env) (l : List StackItem)
    (x : StackItem) : stackWeight B (l ++ [x]) = stackWeight B l + taskWeight B x := by
  simp [stackWeight]

/-- Weight contributed by classifying one item. -/
def pushWeight {env : ScanEnv} (B : ScanBounds env) (i : DriveItem) : Nat :=
  if i.mimeType = folderMime then (B.degree + 2) ^ (B.rank i.id + 1) else 1

theorem pushWeight_pos {env : ScanEnv} (B : ScanBounds env) (i : DriveItem) :
    1 ≤ pushWeight B i := by
  rw [pushWeight]
  by_cases h : i.mimeType = folderMime
  · rw [if_pos h]
    exact Nat.one_le_pow _ _ (by omega)
  · rw [if_neg h]

/-- Everything on the classification output stack is an old entry, a pushed
folder task, or an appended shortcut-target task. -/
theorem classifyItem_stack_shape {env : ScanEnv} {cids : List String} {t : StackItem}
    {acc : ScanState × List DriveItem} {item : DriveItem} {x : StackItem}
    (hx : x ∈ (classifyItem env cids t acc item).1.scanStack) :
    x ∈ acc.1.scanStack ∨
    (x = folderTaskOf t item ∧ item.mimeType = folderMime ∧ item.id ∉ cids) ∨
    (x = shortcutTaskOf t item ∧ item.mimeType = shortcutMime ∧ item.id ∉ cids) := by
  obtain ⟨st, cand⟩ := acc
  by_cases hm : item.id ∈ cids
  · left
    cases hb : t.source.isFileSource <;> simpa [classifyItem, hm, hb] using hx
  · by_cases h3 : item.mimeType = folderMime
    · have hx' : x ∈ folderTaskOf t item :: st.scanStack := by
        cases hb : t.source.isFileSource <;> simpa [classifyItem, hm, hb, h3] using hx
      rcases List.mem_cons.mp hx' with hx' | hx'
      · right; left; exact ⟨hx', h3, hm⟩
      · left; exact hx'
    · by_cases h4 : sizeTooBig env.maxDownloadSizeMB item = true
      · left
        cases hb : t.source.isFileSource <;> simpa [classifyItem, hm, hb, h3, h4] using hx
      · by_cases h5 : item.mimeType = shortcutMime
        · have hx' : x ∈ st.scanStack ++ [shortcutTaskOf t item] := by
            cases hb : t.source.isFileSource <;>
              simpa [classifyItem, hm, hb, h3, h4, h5, shortcutMime_ne_folderMime] using hx
          rcases List.mem_append.mp hx' with hx' | hx'
          · left; exact hx'
          · right; right; exact ⟨List.mem_singleton.mp hx', h5, hm⟩
        · by_cases h6 : isArchiveItem item = true
          · left
            cases hb : t.source.isFileSource <;>
              simpa [classifyItem, hm, hb, h3, h4, h5, h6] using hx
          · by_cases h7 : item.fullFileExtension.isSome
            · left
              cases hb : t.source.isFileSource <;>
                simpa [classifyItem, hm, hb, h3, h4, h5, h6, h7] using hx
            · left
              cases hb : t.source.isFileSource <;>
                simpa [classifyItem, hm, hb, h3, h4, h5, h6, h7] using hx

theorem foldl_classify_stack_shape {env : ScanEnv} {cids : List String} {t : StackItem} :
    ∀ {items : List DriveItem} {acc : ScanState × List DriveItem} {x : StackItem},
    x ∈ (items.foldl (classifyItem env cids t) acc).1.scanStack →
    x ∈ acc.1.scanStack ∨ ∃ i ∈ items,
      (x = folderTaskOf t i ∧ i.mimeType = folderMime ∧ i.id ∉ cids) ∨
      (x = shortcutTaskOf t i ∧ i.mimeType = shortcutMime ∧ i.id ∉ cids) := by
  intro items
  induction items with
  | nil => intro acc x hx; left; exact hx
  | cons i rest ih =>
    intro acc x hx
    rcases ih hx with hx' | ⟨j, hj, hcase⟩
    · rcases classifyItem_stack_shape hx' with h | h | h
      · left; exact h
      · right; exact ⟨i, List.mem_cons_self i rest, Or.inl h⟩
      · right; exact ⟨i, List.mem_cons_self i rest, Or.inr h⟩
    · right; exact ⟨j, List.mem_cons_of_mem i hj, hcase⟩

theorem processTask_stack_shape {env : ScanEnv} {cids : List String} {t : StackItem}
    {items : List DriveItem} {st : ScanState} {x : StackItem}
    (hx : x ∈ (processTask env cids t items st).scanStack) :
    x ∈ st.scanStack ∨ ∃ i ∈ items,
      (x = folderTaskOf t i ∧ i.mimeType = folderMime ∧ i.id ∉ cids) ∨
      (x = shortcutTaskOf t i ∧ i.mimeType = shortcutMime ∧ i.id ∉ cids) := by
  unfold processTask at hx
  by_cases hc : appearsToBeChartFolder
      (((items.foldl (classifyItem env cids t) (st, [])).2).map
        fun f => f.fullFileExtension.getD "") = true
  · simp only [hc, if_pos] at hx
    exact foldl_classify_stack_shape hx
  · simp only [hc, Bool.false_eq_true, if_false] at hx
    exact foldl_classify_stack_shape hx

theorem resolveFileShortcut_is_getFile (g : DriveGraph) (visited : List String) :
    ∀ (fuel : Nat) (x : String), ∃ j, resolveFileShortcut g visited fuel x = g.getFile j := by
  intro fuel
  induction fuel with
  | zero => intro x; exact ⟨x, rfl⟩
  | succ n ih =>
    intro x
    rw [resolveFileShortcut]
    by_cases h : shouldResolve visited (g.getFile x) = true
    · simpa [h] using ih (targetIdOf (g.getFile x))
    · exact ⟨x, by simp [h]⟩

/-- A folder item in the `readItems` output comes unmodified from the folder
listing (replacements are fetched files, never folders). -/
theorem readItems_folder_mem {env : ScanEnv} (B : ScanBounds env) {v : List String}
    {t : StackItem} {items : List DriveItem} {i : DriveItem}
    (hread : readItems env v t = some items) (hi : i ∈ items)
    (hfold : i.mimeType = folderMime) :
    t.isFile = false ∧ ∃ l, env.graph.listing t.self.id = some l ∧ i ∈ l := by
  rw [readItems] at hread
  by_cases hf : t.isFile = true
  · rw [if_pos hf] at hread
    obtain ⟨j, hj⟩ := resolveFileShortcut_is_getFile env.graph v env.resolveFuel t.self.id
    have : items = [resolveFileShortcut env.graph v env.resolveFuel t.self.id] := by
      injection hread with h
      exact h.symm
    rw [this] at hi
    rw [List.mem_singleton.mp hi, hj] at hfold
    exact absurd hfold (B.getFile_not_folder j)
  · have hf' : t.isFile = false := by
      cases hft : t.isFile
      · rfl
      · exact absurd hft hf
    rw [if_neg hf] at hread
    cases hl : env.graph.listing t.self.id with
    | none => rw [hl] at hread; exact absurd hread (by simp)
    | some l =>
      rw [hl] at hread
      refine ⟨hf', l, rfl, ?_⟩
      have hitems : items = l.map fun j =>
          if shouldResolve v j then
            resolveFileShortcut env.graph v env.resolveFuel (targetIdOf j)
          else j := by
        injection hread with h
        exact h.symm
      rw [hitems] at hi
      obtain ⟨j, hjl, hji⟩ := List.mem_map.mp hi
      by_cases hsr : shouldResolve v j = true
      · rw [if_pos hsr] at hji
        obtain ⟨k, hk⟩ := resolveFileShortcut_is_getFile env.graph v env.resolveFuel (targetIdOf j)
        rw [← hji, hk] at hfold
        exact absurd hfold (B.getFile_not_folder k)
      · rw [if_neg hsr] at hji
        exact hji ▸ hjl

/-- A shortcut item in the `readItems` output has its target inside the id
universe. -/
theorem readItems_shortcut_target {env : ScanEnv} (B : ScanBounds env) {v : List String}
    {t : StackItem} {items : List DriveItem} {i : DriveItem}
    (hread : readItems env v t = some items) (hi : i ∈ items)
    (hsc : i.mimeType = shortcutMime) : targetIdOf i ∈ B.ids := by
  rw [readItems] at hread
  by_cases hf : t.isFile = true
  · rw [if_pos hf] at hread
    obtain ⟨j, hj⟩ := resolveFileShortcut_is_getFile env.graph v env.resolveFuel t.self.id
    have : items = [resolveFileShortcut env.graph v env.resolveFuel t.self.id] := by
      injection hread with h
      exact h.symm
    rw [this] at hi
    rw [List.mem_singleton.mp hi, hj] at hsc ⊢
    exact B.getFile_target j hsc
  · rw [if_neg hf] at hread
    cases hl : env.graph.listing t.self.id with
    | none => rw [hl] at hread; exact absurd hread (by simp)
    | some l =>
      rw [hl] at hread
      have hitems : items = l.map fun j =>
          if shouldResolve v j then
            resolveFileShortcut env.graph v env.resolveFuel (targetIdOf j)
          else j := by
        injection hread with h
        exact h.symm
      rw [hitems] at hi
      obtain ⟨j, hjl, hji⟩ := List.mem_map.mp hi
      by_cases hsr : shouldResolve v j = true
      · rw [if_pos hsr] at hji
        obtain ⟨k, hk⟩ := resolveFileShortcut_is_getFile env.graph v env.resolveFuel (targetIdOf j)
        rw [← hji, hk] at hsc ⊢
        exact B.getFile_target k hsc
      · rw [if_neg hsr] at hji
        rw [← hji] at hsc ⊢
        exact B.listing_target t.self.id l hl j hjl hsc

end BridgeScanner

namespace BridgeScanner

theorem classifyItem_weight {env : ScanEnv} (B : ScanBounds env) {cids : List String}
    {t : StackItem} (acc : ScanState × List DriveItem) (i : DriveItem) :
    stackWeight B (classifyItem env cids t acc i).1.scanStack
      ≤ stackWeight B acc.1.scanStack + pushWeight B i := by
  obtain ⟨st, cand⟩ := acc
  dsimp only
  have hpos := pushWeight_pos B i
  by_cases hm : i.id ∈ cids
  · have : (classifyItem env cids t (st, cand) i).1.scanStack = st.scanStack := by
      cases hb : t.source.isFileSource <;> simp [classifyItem, hm, hb]
    rw [this]
    omega
  · by_cases h3 : i.mimeType = folderMime
    · have : (classifyItem env cids t (st, cand) i).1.scanStack
          = folderTaskOf t i :: st.scanStack := by
        cases hb : t.source.isFileSource <;> simp [classifyItem, hm, hb, h3]
      rw [this, stackWeight_cons]
      have : taskWeight B (folderTaskOf t i) = pushWeight B i := by
        rw [taskWeight, folderTaskOf, pushWeight, if_pos h3]
        rfl
      omega
    · by_cases h4 : sizeTooBig env.maxDownloadSizeMB i = true
      · have : (classifyItem env cids t (st, cand) i).1.scanStack = st.scanStack := by
          cases hb : t.source.isFileSource <;> simp [classifyItem, hm, hb, h3, h4]
        rw [this]
        omega
      · by_cases h5 : i.mimeType = shortcutMime
        · have : (classifyItem env cids t (st, cand) i).1.scanStack
              = st.scanStack ++ [shortcutTaskOf t i] := by
            cases hb : t.source.isFileSource <;>
              simp [classifyItem, hm, hb, h3, h4, h5, shortcutMime_ne_folderMime]
          rw [this, stackWeight_append_one]
          have : taskWeight B (shortcutTaskOf t i) = 1 := rfl
          omega
        · by_cases h6 : isArchiveItem i = true
          · have : (classifyItem env cids t (st, cand) i).1.scanStack = st.scanStack := by
              cases hb : t.source.isFileSource <;> simp [classifyItem, hm, hb, h3, h4, h5, h6]
            rw [this]
            omega
          · by_cases h7 : i.fullFileExtension.isSome
            · have : (classifyItem env cids t (st, cand) i).1.scanStack = st.scanStack := by
                cases hb : t.source.isFileSource <;>
                  simp [classifyItem, hm, hb, h3, h4, h5, h6, h7]
              rw [this]
              omega
            · have : (classifyItem env cids t (st, cand) i).1.scanStack = st.scanStack := by
                cases hb : t.source.isFileSource <;>
                  simp [classifyItem, hm, hb, h3, h4, h5, h6, h7]
              rw [this]
              omega

theorem foldl_classify_weight {env : ScanEnv} (B : ScanBounds env) {cids : List String}
    {t : StackItem} :
    ∀ (items : List DriveItem) (acc : ScanState × List DriveItem),
    stackWeight B (items.foldl (classifyItem env cids t) acc).1.scanStack
      ≤ stackWeight B acc.1.scanStack + (items.map (pushWeight B)).sum := by
  intro items
  induction items with
  | nil => intro acc; simp
  | cons i rest ih =>
    intro acc
    have h1 := @classifyItem_weight env B cids t acc i
    have h2 := ih (classifyItem env cids t acc i)
    rw [List.foldl_cons, List.map_cons, List.sum_cons]
    omega

theorem processTask_weight {env : ScanEnv} (B : ScanBounds env) {cids : List String}
    {t : StackItem} {items : List DriveItem} {st : ScanState} :
    stackWeight B (processTask env cids t items st).scanStack
      ≤ stackWeight B st.scanStack + (items.map (pushWeight B)).sum := by
  unfold processTask
  have := @foldl_classify_weight env B cids t items (st, [])
  by_cases hc : appearsToBeChartFolder
      (((items.foldl (classifyItem env cids t) (st, [])).2).map
        fun f => f.fullFileExtension.getD "") = true
  · simpa [hc] using this
  · simpa [hc] using this

theorem sum_map_le_length_mul {α : Type} (f : α → Nat) (c : Nat) :
    ∀ (l : List α), (∀ x ∈ l, f x ≤ c) → (l.map f).sum ≤ l.length * c := by
  intro l
  induction l with
  | nil => intro _; simp
  | cons x rest ih =>
    intro h
    rw [List.map_cons, List.sum_cons, List.length_cons]
    have h1 := h x (List.mem_cons_self x rest)
    have h2 := ih fun y hy => h y (List.mem_cons_of_mem x hy)
    have : (rest.length + 1) * c = rest.length * c + c := by ring
    omega

theorem pushWeight_le_max {env : ScanEnv} (B : ScanBounds env) (i : DriveItem) :
    pushWeight B i ≤ (B.degree + 2) ^ (B.maxRank + 1) := by
  rw [pushWeight]
  by_cases h : i.mimeType = folderMime
  · rw [if_pos h]
    exact Nat.pow_le_pow_right (by omega) (by have := B.rank_le i.id; omega)
  · rw [if_neg h]
    exact Nat.one_le_pow _ _ (by omega)

theorem pushWeight_le_rank {env : ScanEnv} (B : ScanBounds env) {v : List String}
    {t : StackItem} {items : List DriveItem} {i : DriveItem}
    (hread : readItems env v t = some items) (hi : i ∈ items) :
    pushWeight B i ≤ (B.degree + 2) ^ (B.rank t.self.id) := by
  rw [pushWeight]
  by_cases h : i.mimeType = folderMime
  · rw [if_pos h]
    obtain ⟨_, l, hl, hmem⟩ := readItems_folder_mem B hread hi h
    have := B.listing_rank t.self.id l hl i hmem h
    exact Nat.pow_le_pow_right (by omega) (by omega)
  · rw [if_neg h]
    exact Nat.one_le_pow _ _ (by omega)

theorem readItems_length {env : ScanEnv} (B : ScanBounds env) {v : List String}
    {t : StackItem} {items : List DriveItem}
    (hread : readItems env v t = some items) : items.length ≤ max 1 B.degree := by
  rw [readItems] at hread
  by_cases hf : t.isFile = true
  · rw [if_pos hf] at hread
    have : items = [resolveFileShortcut env.graph v env.resolveFuel t.self.id] := by
      injection hread with h
      exact h.symm
    rw [this]
    simp
  · rw [if_neg hf] at hread
    cases hl : env.graph.listing t.self.id with
    | none => rw [hl] at hread; exact absurd hread (by simp)
    | some l =>
      rw [hl] at hread
      have hitems : items = l.map fun j =>
          if shouldResolve v j then
            resolveFileShortcut env.graph v env.resolveFuel (targetIdOf j)
          else j := by
        injection hread with h
        exact h.symm
      rw [hitems, List.length_map]
      exact le_max_of_le_right (B.listing_len t.self.id l hl)

end BridgeScanner

namespace BridgeScanner

theorem taskWeight_pos {env : ScanEnv} (B : ScanBounds env) (t : StackItem) :
    1 ≤ taskWeight B t := by
  rw [taskWeight]
  by_cases h : t.isShortcut = true
  · rw [if_pos h]
  · rw [if_neg h]
    exact Nat.one_le_pow _ _ (by omega)

/-- Invariant: every shortcut task on the stack targets an id inside the
bounded universe (its target came from a listing or a fetched file). -/
def StackIdsOK {env : ScanEnv} (B : ScanBounds env) (st : ScanState) : Prop :=
  ∀ t ∈ st.scanStack, t.isShortcut = true → t.self.id ∈ B.ids

theorem stackIdsOK_init {env : ScanEnv} (B : ScanBounds env) (sources : List Source) :
    StackIdsOK B (initState sources) := by
  intro t ht hsc
  have := initStack_no_shortcut sources t ht
  rw [this] at hsc
  exact absurd hsc (by simp)

theorem scanStep_stackIdsOK {env : ScanEnv} (B : ScanBounds env) {cids : List String}
    {st : ScanState} (hinv : StackIdsOK B st) : StackIdsOK B (scanStep env cids st) := by
  cases hstk : st.scanStack with
  | nil =>
    intro x hx
    rw [scanStep, hstk] at hx
    exact hinv x (hstk ▸ hx)
  | cons t rest =>
    have hrest : ∀ x ∈ rest, x.isShortcut = true → x.self.id ∈ B.ids := by
      intro x hx
      exact hinv x (by rw [hstk]; exact List.mem_cons_of_mem t hx)
    by_cases hskip : t.isShortcut = true ∧ t.self.id ∈ st.visitedDriveIDs
    · intro x hx
      rw [show scanStep env cids st = { st with scanStack := rest } by
        simp [scanStep, hstk, hskip]] at hx
      exact hrest x hx
    · cases hread : readItems env (addVisited t.self.id st.visitedDriveIDs) t with
      | none =>
        intro x hx hxs
        have hx' : x ∈ rest := by
          have hs : (scanStep env cids st).scanStack = rest := by
            simp only [scanStep, hstk]
            rw [if_neg (by simpa using hskip)]
            simp [hread]
          rw [hs] at hx
          exact hx
        exact hrest x hx' hxs
      | some items =>
        intro x hx hxs
        have hstep : scanStep env cids st = processTask env cids t items { st with scanStack := rest, results := if t.isSource then jsObjSet st.results t.source.driveID [] else st.results, visitedDriveIDs := addVisited t.self.id st.visitedDriveIDs, listedLog := (t.self.id, t.isShortcut) :: st.listedLog } := by
          simp only [scanStep, hstk]
          rw [if_neg (by simpa using hskip)]
          simp [hread]
        rw [hstep] at hx
        rcases processTask_stack_shape hx with hx' | ⟨i, hi, hcase⟩
        · exact hrest x hx' hxs
        · rcases hcase with ⟨hxe, _, _⟩ | ⟨hxe, hsc, _⟩
          · rw [hxe] at hxs
            exact absurd hxs (by simp [folderTaskOf])
          · rw [hxe]
            exact readItems_shortcut_target B hread hi hsc

theorem scanStep_measure_aux_pop {env : ScanEnv} (B : ScanBounds env) {t : StackItem}
    {rest : List StackItem} {st st' : ScanState}
    (hstk : st.scanStack = t :: rest) (hs1 : st'.scanStack = rest)
    (hvsub : ∀ x ∈ st.visitedDriveIDs, x ∈ st'.visitedDriveIDs) :
    scanMeasure B st' < scanMeasure B st := by
  rw [scanMeasure, scanMeasure, hstk, hs1, stackWeight_cons]
  have hU := unvisitedCount_mono B hvsub
  have htw := taskWeight_pos B t
  have hmul := Nat.mul_le_mul
    (le_refl (B.degree * (B.degree + 2) ^ (B.maxRank + 1) + 2)) hU
  omega

theorem scanStep_measure_aux_proc {env : ScanEnv} (B : ScanBounds env) {cids : List String}
    {t : StackItem} {rest : List StackItem} {items : List DriveItem} {st st1 : ScanState}
    (hstk : st.scanStack = t :: rest) (hs1 : st1.scanStack = rest)
    (hv1 : st1.visitedDriveIDs = addVisited t.self.id st.visitedDriveIDs)
    (hnskip : ¬(t.isShortcut = true ∧ t.self.id ∈ st.visitedDriveIDs))
    (hq : t.isShortcut = true → t.self.id ∈ B.ids)
    (hread : readItems env (addVisited t.self.id st.visitedDriveIDs) t = some items) :
    scanMeasure B (processTask env cids t items st1) < scanMeasure B st := by
  have hvsub : ∀ x ∈ st.visitedDriveIDs,
      x ∈ (processTask env cids t items st1).visitedDriveIDs := by
    intro x hx
    apply processTask_visited_mono
    rw [hv1]
    exact mem_addVisited_of_mem hx
  have hUle := unvisitedCount_mono B hvsub
  have hsw' : stackWeight B (processTask env cids t items st1).scanStack
      ≤ stackWeight B rest + (items.map (pushWeight B)).sum := by
    have h := @processTask_weight env B cids t items st1
    rw [hs1] at h
    exact h
  have hlen : items.length ≤ B.degree := by
    have h := readItems_length B hread
    have hmax : max 1 B.degree = B.degree := max_eq_right B.degree_pos
    rw [hmax] at h
    exact h
  rw [scanMeasure, scanMeasure, hstk, stackWeight_cons]
  by_cases hsc : t.isShortcut = true
  · have hqo : t.self.id ∉ st.visitedDriveIDs := fun hmem => hnskip ⟨hsc, hmem⟩
    have hqn : t.self.id ∈ (processTask env cids t items st1).visitedDriveIDs := by
      apply processTask_visited_mono
      rw [hv1]
      exact mem_addVisited_self _ _
    have hUlt := unvisitedCount_lt B hvsub (hq hsc) hqo hqn
    have htw : taskWeight B t = 1 := by rw [taskWeight, if_pos hsc]
    have hsum : (items.map (pushWeight B)).sum
        ≤ B.degree * (B.degree + 2) ^ (B.maxRank + 1) :=
      le_trans (sum_map_le_length_mul (pushWeight B) _ items fun i _ => pushWeight_le_max B i)
        (Nat.mul_le_mul hlen le_rfl)
    have hmul := Nat.mul_le_mul
      (le_refl (B.degree * (B.degree + 2) ^ (B.maxRank + 1) + 2)) (Nat.succ_le_of_lt hUlt)
    rw [Nat.mul_succ] at hmul
    omega
  · have htw2 : taskWeight B t = B.degree * (B.degree + 2) ^ (B.rank t.self.id)
        + 2 * (B.degree + 2) ^ (B.rank t.self.id) := by
      rw [taskWeight, if_neg hsc, pow_succ]
      ring
    have hsum : (items.map (pushWeight B)).sum
        ≤ B.degree * (B.degree + 2) ^ (B.rank t.self.id) :=
      le_trans
        (sum_map_le_length_mul (pushWeight B) _ items fun i hi => pushWeight_le_rank B hread hi)
        (Nat.mul_le_mul hlen le_rfl)
    have hP : 1 ≤ (B.degree + 2) ^ (B.rank t.self.id) := Nat.one_le_pow _ _ (by omega)
    have hmul := Nat.mul_le_mul
      (le_refl (B.degree * (B.degree + 2) ^ (B.maxRank + 1) + 2)) hUle
    omega

/-- Every non-final step of the crawl loop strictly decreases the measure. -/
theorem scanStep_measure_lt {env : ScanEnv} (B : ScanBounds env) {cids : List String}
    {st : ScanState} (hne : st.scanStack ≠ []) (hinv : StackIdsOK B st) :
    scanMeasure B (scanStep env cids st) < scanMeasure B st := by
  cases hstk : st.scanStack with
  | nil => exact absurd hstk hne
  | cons t rest =>
    by_cases hskip : t.isShortcut = true ∧ t.self.id ∈ st.visitedDriveIDs
    · rw [show scanStep env cids st = { st with scanStack := rest } by
        simp [scanStep, hstk, hskip]]
      exact scanStep_measure_aux_pop B hstk rfl (fun x hx => hx)
    · cases hread : readItems env (addVisited t.self.id st.visitedDriveIDs) t with
      | none =>
        have hs1 : (scanStep env cids st).scanStack = rest := by
          simp only [scanStep, hstk]
          rw [if_neg (by simpa using hskip)]
          simp [hread]
        exact scanStep_measure_aux_pop B hstk hs1
          (fun x hx => scanStep_visited_mono hx)
      | some items =>
        have hstep : scanStep env cids st = processTask env cids t items { st with scanStack := rest, results := if t.isSource then jsObjSet st.results t.source.driveID [] else st.results, visitedDriveIDs := addVisited t.self.id st.visitedDriveIDs, listedLog := (t.self.id, t.isShortcut) :: st.listedLog } := by
          simp only [scanStep, hstk]
          rw [if_neg (by simpa using hskip)]
          simp [hread]
        rw [hstep]
        exact scanStep_measure_aux_proc B hstk rfl rfl hskip
          (fun hsc => hinv t (by rw [hstk]; exact List.mem_cons_self t rest) hsc) hread

/-- Fuel one past the initial measure always drains the work-list. -/
theorem scanRun_drains {env : ScanEnv} (B : ScanBounds env) (cids : List String) :
    ∀ (μ : Nat) (st : ScanState), scanMeasure B st ≤ μ → StackIdsOK B st →
    (scanRun env cids (μ + 1) st).scanStack = [] := by
  intro μ
  induction μ with
  | zero =>
    intro st hμ _
    cases hstk : st.scanStack with
    | nil => simpa [scanRun, hstk] using hstk
    | cons t rest =>
      exfalso
      have h1 := taskWeight_pos B t
      have h2 : scanMeasure B st ≥ 1 := by
        rw [scanMeasure, hstk, stackWeight_cons]
        omega
      omega
  | succ n ih =>
    intro st hμ hinv
    cases hstk : st.scanStack with
    | nil => simpa [scanRun, hstk] using hstk
    | cons t rest =>
      have hne : st.scanStack ≠ [] := by rw [hstk]; simp
      have hlt := @scanStep_measure_lt env B cids st hne hinv
      have hrun : scanRun env cids (n + 1 + 1) st = scanRun env cids (n + 1) (scanStep env cids st) := by
        rw [scanRun, hstk]
      rw [hrun]
      exact ih (scanStep env cids st) (by omega) (scanStep_stackIdsOK B hinv)

end BridgeScanner

namespace BridgeScanner

/-- Number of times the children of `q` have been listed (one `readItems`
call per non-skipped pop of a task with `self.id = q`). -/
def countListed (q : String) (st : ScanState) : Nat :=
  st.listedLog.countP fun e => e.1 == q

/-- Number of those listings performed by an indirection (shortcut) task. -/
def countShortcutListed (q : String) (st : ScanState) : Nat :=
  st.listedLog.countP fun e => e.1 == q && e.2

/-- Every listed id is in the visited set (the loop adds `self.id` to
`visitedDriveIDs` before calling `readItems`). -/
def LoggedVisited (st : ScanState) : Prop :=
  ∀ e ∈ st.listedLog, e.1 ∈ st.visitedDriveIDs

/-- The visited-guard invariant: `q` has been listed through an indirection
task at most once, and if it has been, `q` is visited. -/
def ShortcutListedOnce (q : String) (st : ScanState) : Prop :=
  countShortcutListed q st ≤ 1 ∧ (1 ≤ countShortcutListed q st → q ∈ st.visitedDriveIDs)

theorem classifyItem_listedLog {env : ScanEnv} {cids : List String} {t : StackItem}
    {acc : ScanState × List DriveItem} {item : DriveItem} :
    (classifyItem env cids t acc item).1.listedLog = acc.1.listedLog := by
  obtain ⟨st, cand⟩ := acc
  by_cases hm : item.id ∈ cids
  · cases hb : t.source.isFileSource <;> simp [classifyItem, hm, hb]
  · by_cases h3 : item.mimeType = folderMime
    · cases hb : t.source.isFileSource <;> simp [classifyItem, hm, hb, h3]
    · by_cases h4 : sizeTooBig env.maxDownloadSizeMB item = true
      · cases hb : t.source.isFileSource <;> simp [classifyItem, hm, hb, h3, h4]
      · by_cases h5 : item.mimeType = shortcutMime
        · cases hb : t.source.isFileSource <;>
            simp [classifyItem, hm, hb, h3, h4, h5, shortcutMime_ne_folderMime]
        · by_cases h6 : isArchiveItem item = true
          · cases hb : t.source.isFileSource <;> simp [classifyItem, hm, hb, h3, h4, h5, h6]
          · by_cases h7 : item.fullFileExtension.isSome
            · cases hb : t.source.isFileSource <;>
                simp [classifyItem, hm, hb, h3, h4, h5, h6, h7]
            · cases hb : t.source.isFileSource <;>
                simp [classifyItem, hm, hb, h3, h4, h5, h6, h7]

theorem foldl_classify_listedLog {env : ScanEnv} {cids : List String} {t : StackItem} :
    ∀ (items : List DriveItem) (acc : ScanState × List DriveItem),
    (items.foldl (classifyItem env cids t) acc).1.listedLog = acc.1.listedLog := by
  intro items
  induction items with
  | nil => intro acc; rfl
  | cons i rest ih =>
    intro acc
    rw [List.foldl_cons, ih, classifyItem_listedLog]

theorem processTask_listedLog {env : ScanEnv} {cids : List String} {t : StackItem}
    {items : List DriveItem} {st : ScanState} :
    (processTask env cids t items st).listedLog = st.listedLog := by
  unfold processTask
  have h := @foldl_classify_listedLog env cids t items (st, [])
  by_cases hc : appearsToBeChartFolder
      (((items.foldl (classifyItem env cids t) (st, [])).2).map
        fun f => f.fullFileExtension.getD "") = true
  · simpa [hc] using h
  · simpa [hc] using h

theorem countShortcutListed_cons {q a : String} {b : Bool} {st' st : ScanState}
    (hlog : st'.listedLog = (a, b) :: st.listedLog) :
    countShortcutListed q st'
      = countShortcutListed q st + if a = q ∧ b = true then 1 else 0 := by
  simp only [countShortcutListed, hlog, List.countP_cons, Bool.and_eq_true, beq_iff_eq]

theorem scanStep_log_facts {env : ScanEnv} {cids : List String} {st : ScanState}
    {t : StackItem} {rest : List StackItem}
    (hstk : st.scanStack = t :: rest)
    (hskip : ¬(t.isShortcut = true ∧ t.self.id ∈ st.visitedDriveIDs)) :
    (scanStep env cids st).listedLog = (t.self.id, t.isShortcut) :: st.listedLog ∧
    ∀ x ∈ addVisited t.self.id st.visitedDriveIDs,
      x ∈ (scanStep env cids st).visitedDriveIDs := by
  cases hread : readItems env (addVisited t.self.id st.visitedDriveIDs) t with
  | none =>
    have hlog : (scanStep env cids st).listedLog
        = (t.self.id, t.isShortcut) :: st.listedLog := by
      simp only [scanStep, hstk]
      rw [if_neg (by simpa using hskip)]
      simp [hread]
    have hvis : (scanStep env cids st).visitedDriveIDs
        = addVisited t.self.id st.visitedDriveIDs := by
      simp only [scanStep, hstk]
      rw [if_neg (by simpa using hskip)]
      simp [hread]
    exact ⟨hlog, fun x hx => hvis ▸ hx⟩
  | some items =>
    have hstep : scanStep env cids st = processTask env cids t items { st with scanStack := rest, results := if t.isSource then jsObjSet st.results t.source.driveID [] else st.results, visitedDriveIDs := addVisited t.self.id st.visitedDriveIDs, listedLog := (t.self.id, t.isShortcut) :: st.listedLog } := by
      simp only [scanStep, hstk]
      rw [if_neg (by simpa using hskip)]
      simp [hread]
    constructor
    · rw [hstep, processTask_listedLog]
    · intro x hx
      rw [hstep]
      exact processTask_visited_mono hx

theorem scanStep_loggedVisited {env : ScanEnv} {cids : List String} {st : ScanState}
    (h : LoggedVisited st) : LoggedVisited (scanStep env cids st) := by
  cases hstk : st.scanStack with
  | nil =>
    rw [show scanStep env cids st = st by simp [scanStep, hstk]]
    exact h
  | cons t rest =>
    by_cases hskip : t.isShortcut = true ∧ t.self.id ∈ st.visitedDriveIDs
    · rw [show scanStep env cids st = { st with scanStack := rest } by
        simp [scanStep, hstk, hskip]]
      intro e he
      exact h e he
    · obtain ⟨hlog, hvsub⟩ := @scanStep_log_facts env cids st t rest hstk hskip
      intro e he
      rw [hlog] at he
      rcases List.mem_cons.mp he with he | he
      · rw [he]
        exact hvsub t.self.id (mem_addVisited_self _ _)
      · exact hvsub e.1 (mem_addVisited_of_mem (h e he))

theorem scanStep_shortcutListedOnce {env : ScanEnv} {cids : List String} {q : String}
    {st : ScanState} (h : ShortcutListedOnce q st) :
    ShortcutListedOnce q (scanStep env cids st) := by
  obtain ⟨h1, h2⟩ := h
  cases hstk : st.scanStack with
  | nil =>
    rw [show scanStep env cids st = st by simp [scanStep, hstk]]
    exact ⟨h1, h2⟩
  | cons t rest =>
    by_cases hskip : t.isShortcut = true ∧ t.self.id ∈ st.visitedDriveIDs
    · rw [show scanStep env cids st = { st with scanStack := rest } by
        simp [scanStep, hstk, hskip]]
      exact ⟨h1, h2⟩
    · obtain ⟨hlog, hvsub⟩ := @scanStep_log_facts env cids st t rest hstk hskip
      have hvmono : ∀ x ∈ st.visitedDriveIDs, x ∈ (scanStep env cids st).visitedDriveIDs :=
        fun x hx => hvsub x (mem_addVisited_of_mem hx)
      have hcnt := countShortcutListed_cons (q := q) hlog
      by_cases hpa : t.self.id = q ∧ t.isShortcut = true
      · have hnv : t.self.id ∉ st.visitedDriveIDs := fun hmem => hskip ⟨hpa.2, hmem⟩
        have hz : countShortcutListed q st = 0 := by
          by_contra hnz
          exact hnv (hpa.1.symm ▸ h2 (by omega))
        refine ⟨by rw [hcnt, hz, if_pos hpa], fun _ => ?_⟩
        exact hpa.1 ▸ hvsub t.self.id (mem_addVisited_self _ _)
      · constructor
        · rw [hcnt, if_neg hpa]
          omega
        · intro hge
          rw [hcnt, if_neg hpa] at hge
          exact hvmono q (h2 (by omega))

theorem scanRun_preserves {env : ScanEnv} {cids : List String} {P : ScanState → Prop}
    (hstep : ∀ st, P st → P (scanStep env cids st)) :
    ∀ (n : Nat) (st : ScanState), P st → P (scanRun env cids n st) := by
  intro n
  induction n with
  | zero => intro st h; exact h
  | succ m ih =>
    intro st h
    cases hstk : st.scanStack with
    | nil =>
      rw [show scanRun env cids (m + 1) st = st by simp [scanRun, hstk]]
      exact h
    | cons t r =>
      rw [show scanRun env cids (m + 1) st = scanRun env cids m (scanStep env cids st) by
        rw [scanRun, hstk]]
      exact ih _ (hstep st h)

theorem loggedVisited_init (sources : List Source) : LoggedVisited (initState sources) := by
  intro e he
  exact absurd he (by simp [initState])

theorem shortcutListedOnce_init (q : String) (sources : List Source) :
    ShortcutListedOnce q (initState sources) := by
  constructor
  · simp [countShortcutListed, initState]
  · intro h
    simp [countShortcutListed, initState] at h

theorem scanStep_skips_listed {env : ScanEnv} {cids : List String} {st : ScanState}
    {t : StackItem} {rest : List StackItem} {b : Bool}
    (hlv : LoggedVisited st) (hstk : st.scanStack = t :: rest)
    (hsc : t.isShortcut = true) (hlog : (t.self.id, b) ∈ st.listedLog) :
    scanStep env cids st = { st with scanStack := rest } := by
  have hmem : t.self.id ∈ st.visitedDriveIDs := hlv (t.self.id, b) hlog
  simp [scanStep, hstk, hsc, hmem]

end BridgeScanner

namespace BridgeScanner

def c3folder (id nm : String) : DriveItem := ⟨id, nm, folderMime, "", "", none, none, none⟩

def c3shortcut (id nm target : String) : DriveItem :=
  ⟨id, nm, shortcutMime, "", "", none, none, some ⟨target, folderMime⟩⟩

def exC3ListR : List DriveItem := [c3shortcut "s5" "s5" "B", c3shortcut "s6" "s6" "X"]

def exC3ListX : List DriveItem := [c3folder "A" "A"]

def exC3ListA : List DriveItem := [c3folder "B" "B"]

def exC3ListB : List DriveItem := [c3folder "C" "C"]

def exC3ListC : List DriveItem := [c3shortcut "s1" "s1" "B"]

/-- A graph with a folder chain `X → A → B → C`, an indirection `s1` (inside
`C`) pointing to its ancestor folder `B`, and two indirections at the root
`R`: `s5 → B` and `s6 → X` (the only route to `X`). -/
def exC3Listing : String → Option (List DriveItem) := fun id =>
  if id = "R" then some exC3ListR
  else if id = "X" then some exC3ListX
  else if id = "A" then some exC3ListA
  else if id = "B" then some exC3ListB
  else if id = "C" then some exC3ListC
  else none

def exC3Graph : DriveGraph := ⟨exC3Listing, fun _ => ⟨"", "", "", "", "", none, none, none⟩⟩

def exC3Env : ScanEnv := ⟨exC3Graph, -1, fun s => s, 3⟩

def exC3Sources : List Source := [⟨"R", "own", false⟩]

def exC3Rank : String → Nat := fun id =>
  if id = "X" then 3 else if id = "A" then 2 else if id = "B" then 1 else 0

theorem exC3Listing_cases {id : String} {l : List DriveItem}
    (h : exC3Listing id = some l) :
    (id = "R" ∧ l = exC3ListR) ∨ (id = "X" ∧ l = exC3ListX) ∨
    (id = "A" ∧ l = exC3ListA) ∨ (id = "B" ∧ l = exC3ListB) ∨
    (id = "C" ∧ l = exC3ListC) := by
  simp only [exC3Listing] at h
  by_cases h1 : id = "R"
  · rw [if_pos h1] at h
    exact Or.inl ⟨h1, (Option.some.inj h).symm⟩
  · rw [if_neg h1] at h
    by_cases h2 : id = "X"
    · rw [if_pos h2] at h
      exact Or.inr (Or.inl ⟨h2, (Option.some.inj h).symm⟩)
    · rw [if_neg h2] at h
      by_cases h3 : id = "A"
      · rw [if_pos h3] at h
        exact Or.inr (Or.inr (Or.inl ⟨h3, (Option.some.inj h).symm⟩))
      · rw [if_neg h3] at h
        by_cases h4 : id = "B"
        · rw [if_pos h4] at h
          exact Or.inr (Or.inr (Or.inr (Or.inl ⟨h4, (Option.some.inj h).symm⟩)))
        · rw [if_neg h4] at h
          by_cases h5 : id = "C"
          · rw [if_pos h5] at h
            exact Or.inr (Or.inr (Or.inr (Or.inr ⟨h5, (Option.some.inj h).symm⟩)))
          · rw [if_neg h5] at h
            exact absurd h (by simp)

def exC3Bounds : ScanBounds exC3Env where
  ids := {"R", "X", "A", "B", "C"}
  rank := exC3Rank
  degree := 2
  maxRank := 3
  degree_pos := by omega
  listing_len := by
    intro id l h
    rcases exC3Listing_cases h with ⟨_, hl⟩ | ⟨_, hl⟩ | ⟨_, hl⟩ | ⟨_, hl⟩ | ⟨_, hl⟩ <;>
      subst hl <;> decide
  listing_rank := by
    intro id l h i hi hf
    rcases exC3Listing_cases h with ⟨hid, hl⟩ | ⟨hid, hl⟩ | ⟨hid, hl⟩ | ⟨hid, hl⟩ |
      ⟨hid, hl⟩ <;> subst hid <;> subst hl
    · simp only [exC3ListR, List.mem_cons, List.not_mem_nil, or_false] at hi
      rcases hi with rfl | rfl <;> exact absurd hf (by decide)
    · simp only [exC3ListX, List.mem_cons, List.not_mem_nil, or_false] at hi
      rcases hi with rfl
      decide
    · simp only [exC3ListA, List.mem_cons, List.not_mem_nil, or_false] at hi
      rcases hi with rfl
      decide
    · simp only [exC3ListB, List.mem_cons, List.not_mem_nil, or_false] at hi
      rcases hi with rfl
      decide
    · simp only [exC3ListC, List.mem_cons, List.not_mem_nil, or_false] at hi
      rcases hi with rfl
      exact absurd hf (by decide)
  rank_le := by
    intro id
    simp only [exC3Rank]
    split_ifs <;> omega
  listing_target := by
    intro id l h i hi hs
    rcases exC3Listing_cases h with ⟨hid, hl⟩ | ⟨hid, hl⟩ | ⟨hid, hl⟩ | ⟨hid, hl⟩ |
      ⟨hid, hl⟩ <;> subst hid <;> subst hl
    · simp only [exC3ListR, List.mem_cons, List.not_mem_nil, or_false] at hi
      rcases hi with rfl | rfl <;> decide
    · simp only [exC3ListX, List.mem_cons, List.not_mem_nil, or_false] at hi
      rcases hi with rfl
      exact absurd hs (by decide)
    · simp only [exC3ListA, List.mem_cons, List.not_mem_nil, or_false] at hi
      rcases hi with rfl
      exact absurd hs (by decide)
    · simp only [exC3ListB, List.mem_cons, List.not_mem_nil, or_false] at hi
      rcases hi with rfl
      exact absurd hs (by decide)
    · simp only [exC3ListC, List.mem_cons, List.not_mem_nil, or_false] at hi
      rcases hi with rfl
      decide
  getFile_not_folder := fun _ h => absurd (show ("" : String) = folderMime from h) (by decide)
  getFile_target := fun _ h => absurd (show ("" : String) = shortcutMime from h) (by decide)

/-- The indirection task for `s1 → B` as it sits (twice) on the work-list
after seven loop iterations on `exC3Env`. -/
def c3S1Task : StackItem :=
  ⟨false, ⟨"B", "s1"⟩, ⟨"C", "C"⟩, ⟨"R", "own", false⟩, false, true⟩

end BridgeScanner

namespace BridgeScanner

/-- The shortcut-to-file chase of `readItems` (main.ts lines 215-223) recurses
with no depth bound and no visited-set update between calls; the model bounds
it with `env.resolveFuel`.  `ChaseSettles` says every chase reaches an
unresolvable item within that fuel — the condition under which the source
recursion terminates and the fuel truncation is immaterial
(`resolveFileShortcut_fuel_mono`). -/
def ChaseSettles (env : ScanEnv) : Prop :=
  ∀ (v : List String) (x : String),
    shouldResolve v (resolveFileShortcut env.graph v env.resolveFuel x) = false

/-- Once a chase has settled, giving the recursion more depth does not change
its result: the fuel-bounded model computes the source recursion's value. -/
theorem resolveFileShortcut_fuel_mono (g : DriveGraph) (v : List String) :
    ∀ (n m : Nat) (x : String), n ≤ m →
    shouldResolve v (resolveFileShortcut g v n x) = false →
    resolveFileShortcut g v m x = resolveFileShortcut g v n x := by
  intro n
  induction n with
  | zero =>
    intro m x _ hs
    have hs' : shouldResolve v (g.getFile x) = false := hs
    cases m with
    | zero => rfl
    | succ k =>
      rw [resolveFileShortcut]
      simp [resolveFileShortcut, hs']
  | succ p ih =>
    intro m x hnm hs
    cases m with
    | zero => omega
    | succ k =>
      have hk : p ≤ k := by omega
      by_cases hr : shouldResolve v (g.getFile x) = true
      · have h1 : resolveFileShortcut g v (k + 1) x
            = resolveFileShortcut g v k (targetIdOf (g.getFile x)) := by
          rw [resolveFileShortcut]
          simp [hr]
        have h2 : resolveFileShortcut g v (p + 1) x
            = resolveFileShortcut g v p (targetIdOf (g.getFile x)) := by
          rw [resolveFileShortcut]
          simp [hr]
        rw [h1, h2]
        rw [h2] at hs
        exact ih k (targetIdOf (g.getFile x)) hk hs
      · have h1 : resolveFileShortcut g v (k + 1) x = g.getFile x := by
          rw [resolveFileShortcut]
          simp [hr]
        have h2 : resolveFileShortcut g v (p + 1) x = g.getFile x := by
          rw [resolveFileShortcut]
          simp [hr]
        rw [h1, h2]

/-- A self-referential file shortcut: a Drive shortcut whose target is its own
id, target mime not a folder, with a non-archive extension — it satisfies the
resolution conditions of main.ts lines 217-219 whenever its id is unvisited. -/
def c3SelfShortcut : DriveItem :=
  ⟨"t", "t.ogg", shortcutMime, "", "", none, some "ogg", some ⟨"t", "audio/ogg"⟩⟩

def exC3DivGraph : DriveGraph := ⟨fun _ => none, fun _ => c3SelfShortcut⟩

/-- At every recursion depth the chase of `"t"` in `exC3DivGraph` is still
sitting at the same resolvable shortcut: the source recursion of `readItems`
never reaches a base case on this graph. -/
theorem c3DivChase_fixed :
    ∀ n, resolveFileShortcut exC3DivGraph [] n "t" = c3SelfShortcut := by
  intro n
  induction n with
  | zero => rfl
  | succ k ih =>
    have hres : shouldResolve [] (exC3DivGraph.getFile "t") = true := by decide
    have hstep : resolveFileShortcut exC3DivGraph [] (k + 1) "t"
        = resolveFileShortcut exC3DivGraph [] k (targetIdOf (exC3DivGraph.getFile "t")) := by
      rw [resolveFileShortcut]
      simp [hres]
    rw [hstep]
    exact ih

/-- C3 (amended): folder-indirection cycles are safe — the visited-guard of
scanDrive line 120 ensures any id is listed through an indirection task at
most once, and an indirection task whose target id has already been listed
(by any task) is skipped: popping it changes nothing but the work-list.
Termination needs a proviso the original claim lacks: when every
shortcut-to-file resolution chase settles (`ChaseSettles` — the `readItems`
recursion is depth-unbounded in the source), fuel one past the initial
measure empties the work-list, and deeper resolution changes no resolved
item.  Both unqualified halves of the original claim are refuted by
`c3_cycle_counterexample`. -/
theorem c3_cycle_safety {env : ScanEnv} (B : ScanBounds env) (sources : List Source) :
    (ChaseSettles env →
      (scanRun env (sourceIDsOf sources) (scanMeasure B (initState sources) + 1)
          (initState sources)).scanStack = [] ∧
      ∀ (v : List String) (x : String) (m : Nat), env.resolveFuel ≤ m →
        resolveFileShortcut env.graph v m x
          = resolveFileShortcut env.graph v env.resolveFuel x) ∧
    (∀ (q : String) (n : Nat),
      countShortcutListed q (scanRun env (sourceIDsOf sources) n (initState sources)) ≤ 1) ∧
    (∀ (m : Nat) (t : StackItem) (rest : List StackItem) (b : Bool),
      (scanRun env (sourceIDsOf sources) m (initState sources)).scanStack = t :: rest →
      t.isShortcut = true →
      (t.self.id, b) ∈ (scanRun env (sourceIDsOf sources) m (initState sources)).listedLog →
      scanStep env (sourceIDsOf sources)
          (scanRun env (sourceIDsOf sources) m (initState sources))
        = { scanRun env (sourceIDsOf sources) m (initState sources) with
            scanStack := rest }) := by
  refine ⟨fun hch => ⟨?_, ?_⟩, ?_, ?_⟩
  · exact scanRun_drains B (sourceIDsOf sources) (scanMeasure B (initState sources))
      (initState sources) le_rfl (stackIdsOK_init B sources)
  · intro v x m hm
    exact resolveFileShortcut_fuel_mono env.graph v env.resolveFuel m x hm (hch v x)
  · intro q n
    exact (scanRun_preserves (fun st h => scanStep_shortcutListedOnce h) n
      (initState sources) (shortcutListedOnce_init q sources)).1
  · intro m t rest b hstk hsc hlog
    exact scanStep_skips_listed
      (scanRun_preserves (fun st h => scanStep_loggedVisited h) m (initState sources)
        (loggedVisited_init sources)) hstk hsc hlog

/-- Witness: the amended cycle-safety theorem applied to the concrete graph
`exC3Env` (chain `X → A → B → C` with the ancestor indirection `s1 → B`),
whose chases all settle (`getFile` returns an unresolvable blank item), with
the fuel-stability clause at depth 5 and the skip clause at iteration 7,
where the two copies of the `s1 → B` task are all that remains and `B` was
already listed. -/
theorem c3_cycle_safety_witness :
    (scanRun exC3Env (sourceIDsOf exC3Sources)
        (scanMeasure exC3Bounds (initState exC3Sources) + 1)
        (initState exC3Sources)).scanStack = [] ∧
    resolveFileShortcut exC3Env.graph [] 5 "Z"
      = resolveFileShortcut exC3Env.graph [] exC3Env.resolveFuel "Z" ∧
    countShortcutListed "B"
      (scanRun exC3Env (sourceIDsOf exC3Sources) 9 (initState exC3Sources)) ≤ 1 ∧
    scanStep exC3Env (sourceIDsOf exC3Sources)
        (scanRun exC3Env (sourceIDsOf exC3Sources) 7 (initState exC3Sources))
      = { scanRun exC3Env (sourceIDsOf exC3Sources) 7 (initState exC3Sources) with
          scanStack := [c3S1Task] } :=
  ⟨((c3_cycle_safety exC3Bounds exC3Sources).1 (fun _ _ => rfl)).1,
   ((c3_cycle_safety exC3Bounds exC3Sources).1 (fun _ _ => rfl)).2 [] "Z" 5 (by decide),
   (c3_cycle_safety exC3Bounds exC3Sources).2.1 "B" 9,
   (c3_cycle_safety exC3Bounds exC3Sources).2.2 7 c3S1Task [c3S1Task] true
     (by decide) rfl (by decide)⟩

/-- C3 counterexample to the original claim, refuting both halves.
Double-listing: in `exC3Env` the indirection `s1` (inside folder `C`) points
to its ancestor folder `B` — yet the children of `B` are listed twice.
`s5 → B` is popped (after the root's children) before `B`'s tree parent `A`
has been discovered (the only route to `A` is the indirection `s6 → X`,
popped after `s5`), so `s5` lists `B`'s children first; when `A` is later
listed, `B` is pushed as a plain folder task — which the visited-guard does
not cover — and lists them again; that run still terminates (empty work-list
after 9 iterations).  Non-termination: `exC3DivGraph`'s self-referential file
shortcut `"t"` points to itself, and at every recursion depth the chase is
still at the same shortcut satisfying the resolution conditions, so the
depth-unbounded `readItems` recursion of the source never returns on it. -/
theorem c3_cycle_counterexample :
    exC3Env.graph.listing "B" = some [c3folder "C" "C"] ∧
    exC3Env.graph.listing "C" = some [c3shortcut "s1" "s1" "B"] ∧
    (c3shortcut "s1" "s1" "B").mimeType = shortcutMime ∧
    targetIdOf (c3shortcut "s1" "s1" "B") = "B" ∧
    countListed "B"
      (scanRun exC3Env (sourceIDsOf exC3Sources) 9 (initState exC3Sources)) = 2 ∧
    (scanRun exC3Env (sourceIDsOf exC3Sources) 9 (initState exC3Sources)).scanStack = [] ∧
    c3SelfShortcut.mimeType = shortcutMime ∧
    targetIdOf c3SelfShortcut = "t" ∧
    exC3DivGraph.getFile "t" = c3SelfShortcut ∧
    shouldResolve [] c3SelfShortcut = true ∧
    (∀ n, resolveFileShortcut exC3DivGraph [] n "t" = c3SelfShortcut) := by
  refine ⟨by decide, by decide, by decide, by decide, by decide, by decide,
    by decide, by decide, by decide, by decide, c3DivChase_fixed⟩

end BridgeScanner
